import Mathlib

/-!
# Verification of the dlt configuration/secrets resolution engine

A shallow embedding of `dlt/common/configuration/resolve.py`:

* the value serialization layer (`deserialize_value`, `serialize_value`)
  together with the coercion helpers it delegates to
  (`py_type_to_sc_type`, `coerce_type`, `json`, `ast.literal_eval` — these
  helpers live outside the embedded core, so they are modelled from the
  specification's §4.3/§6 contract);
* the value lookup engine (`_resolve_single_value` with its inner
  `look_namespaces` loop), the namespace composition rule
  (`_apply_embedded_namespaces_to_config_namespace`) and the secret trust
  boundary (`_is_secret_hint`);
* per-field resolution (`_resolve_config_field`, `_resolve_config_fields`)
  and the resolution orchestrator (`_resolve_configuration`).

Python's dynamic values are embedded as the inductive `PV`; machine-level
concerns (interning, reflection) are out of scope.  Exceptions are
embedded as `Except` results.
-/

/-- Runtime Python values flowing through the engine.  Scalars are text,
integers and booleans; structured values are tuples, sequences and
string-keyed mappings with integer elements (floats, datetimes and binary
values are outside this embedding). -/
inductive PV where
  | text (s : String)
  | int (i : Int)
  | bool (b : Bool)
  | tuple (xs : List Int)
  | seq (xs : List Int)
  | map (kvs : List (String × Int))
deriving DecidableEq, Repr

/-- Coercion classes produced by `py_type_to_sc_type` (schema type names):
"text", "bigint", "bool", "complex". -/
inductive SC where
  | text
  | bigint
  | boolean
  | complex
deriving DecidableEq, Repr

/-- Declared field types as far as scalar deserialization is concerned:
`hAny` is `AnyType`, the rest are `str`, `int`, `bool`, `tuple`,
sequence (`list`) and mapping (`dict`) hints. -/
inductive SHint where
  | hAny
  | hText
  | hInt
  | hBool
  | hTuple
  | hSeq
  | hMap
deriving DecidableEq, Repr

/-- `py_type_to_sc_type` applied to a declared type hint. -/
def sc_of_hint : SHint → SC
  | .hAny => .text      -- never consulted: deserialize_value returns early on hAny
  | .hText => .text
  | .hInt => .bigint
  | .hBool => .boolean
  | .hTuple => .complex
  | .hSeq => .complex
  | .hMap => .complex

/-- `py_type_to_sc_type` applied to the runtime type of a value. -/
def sc_of_val : PV → SC
  | .text _ => .text
  | .int _ => .bigint
  | .bool _ => .boolean
  | .tuple _ => .complex
  | .seq _ => .complex
  | .map _ => .complex

/-! ## Decimal rendering and parsing of integers

`coerce_type` (external to the embedded file; contract in spec §4.3/§6)
renders integers in their natural decimal form and parses text back into
integers.  The renderer is fuel-based so that it reduces in the kernel. -/

def digitChar (d : Nat) : Char := Char.ofNat (48 + d)

def charVal (c : Char) : Nat := c.toNat - 48

def isDigitChar (c : Char) : Bool := decide (48 ≤ c.toNat ∧ c.toNat ≤ 57)

/-- Most-significant-first decimal digits of `n` (empty for 0); the fuel
argument only serves structural termination and is in practice `n`. -/
def natDigitsAux : Nat → Nat → List Char
  | 0, _ => []
  | fuel + 1, n => if n = 0 then [] else natDigitsAux fuel (n / 10) ++ [digitChar (n % 10)]

def renderNat (n : Nat) : List Char := if n = 0 then ['0'] else natDigitsAux n n

def renderInt (i : Int) : List Char :=
  if i < 0 then '-' :: renderNat i.natAbs else renderNat i.toNat

def parseNatFrom (cs : List Char) : Option (Nat × List Char) :=
  let ds := cs.takeWhile isDigitChar
  if ds.isEmpty then none
  else some (ds.foldl (fun a c => a * 10 + charVal c) 0, cs.dropWhile isDigitChar)

def parseIntFrom (cs : List Char) : Option (Int × List Char) :=
  if cs.head? = some '-' then
    match parseNatFrom cs.tail with
    | some (n, r) => some (-(n : Int), r)
    | none => none
  else
    match parseNatFrom cs with
    | some (n, r) => some ((n : Int), r)
    | none => none

/-! ## Structured-text forms

`json.dumps`/`json.loads` (general structured-text form) and
`ast.literal_eval` (tuple-literal form) are external collaborators of the
embedded file; the spec (§4.3) fixes their contract.  They are modelled
here for integer-element containers and quote-free mapping keys. -/

def quoteChar : Char := Char.ofNat 34

def lbrace : Char := Char.ofNat 123

def rbrace : Char := Char.ofNat 125

def notQuote (c : Char) : Bool := !(c == quoteChar)

/-- The key restriction under which the modelled JSON form inverts:
no key character is a double quote. -/
def goodKey (k : String) : Bool := k.data.all notQuote

def renderIntsSep : List Int → List Char
  | [] => []
  | [i] => renderInt i
  | i :: is => renderInt i ++ ',' :: ' ' :: renderIntsSep is

def renderIntsTail : List Int → List Char
  | [] => []
  | i :: is => ',' :: ' ' :: (renderInt i ++ renderIntsTail is)

def jsonDumpSeq (xs : List Int) : String := String.mk ('[' :: (renderIntsSep xs ++ [']']))

/-- Python `str` of a tuple of integers: `()`, `(1,)`, `(1, 2)`. -/
def renderTuple : List Int → List Char
  | [] => ['(', ')']
  | [i] => '(' :: (renderInt i ++ [',', ')'])
  | i :: is => '(' :: (renderInt i ++ (renderIntsTail is ++ [')']))

def renderKV (k : String) (v : Int) : List Char :=
  quoteChar :: (k.data ++ quoteChar :: ':' :: ' ' :: renderInt v)

def renderKVsSep : List (String × Int) → List Char
  | [] => []
  | [(k, v)] => renderKV k v
  | (k, v) :: kvs => renderKV k v ++ ',' :: ' ' :: renderKVsSep kvs

def renderKVsTail : List (String × Int) → List Char
  | [] => []
  | (k, v) :: kvs => ',' :: ' ' :: (renderKV k v ++ renderKVsTail kvs)

def jsonDumpMap (kvs : List (String × Int)) : String :=
  String.mk (lbrace :: (renderKVsSep kvs ++ [rbrace]))

def parseJsonIntsAfter (fuel : Nat) (cs : List Char) : Option (List Int × List Char) :=
  if cs.head? = some ']' then some ([], cs.tail)
  else if cs.head? = some ',' ∧ cs.tail.head? = some ' ' then
    match fuel with
    | 0 => none
    | fuel' + 1 =>
      (parseIntFrom cs.tail.tail).bind fun ir =>
        (parseJsonIntsAfter fuel' ir.2).bind fun isr =>
          some (ir.1 :: isr.1, isr.2)
  else none

def parseJsonSeqFrom (cs : List Char) : Option (List Int × List Char) :=
  if cs.head? = some '[' then
    if cs.tail.head? = some ']' then some ([], cs.tail.tail)
    else
      (parseIntFrom cs.tail).bind fun ir =>
        (parseJsonIntsAfter ir.2.length ir.2).bind fun isr =>
          some (ir.1 :: isr.1, isr.2)
  else none

def parseTupleIntsAfter (fuel : Nat) (cs : List Char) : Option (List Int × List Char) :=
  if cs.head? = some ')' then some ([], cs.tail)
  else if cs.head? = some ',' ∧ cs.tail.head? = some ')' then some ([], cs.tail.tail)
  else if cs.head? = some ',' ∧ cs.tail.head? = some ' ' then
    match fuel with
    | 0 => none
    | fuel' + 1 =>
      (parseIntFrom cs.tail.tail).bind fun ir =>
        (parseTupleIntsAfter fuel' ir.2).bind fun isr =>
          some (ir.1 :: isr.1, isr.2)
  else none

def parseTupleFrom (cs : List Char) : Option (List Int × List Char) :=
  if cs.head? = some '(' then
    if cs.tail.head? = some ')' then some ([], cs.tail.tail)
    else
      (parseIntFrom cs.tail).bind fun ir =>
        (parseTupleIntsAfter ir.2.length ir.2).bind fun isr =>
          some (ir.1 :: isr.1, isr.2)
  else none

def parseKVFrom (cs : List Char) : Option ((String × Int) × List Char) :=
  if cs.head? = some quoteChar then
    let ks := cs.tail.takeWhile notQuote
    let r := cs.tail.dropWhile notQuote
    if r.head? = some quoteChar ∧ r.tail.head? = some ':' ∧ r.tail.tail.head? = some ' ' then
      (parseIntFrom r.tail.tail.tail).bind fun ir =>
        some ((String.mk ks, ir.1), ir.2)
    else none
  else none

def parseJsonKVsAfter (fuel : Nat) (cs : List Char) :
    Option (List (String × Int) × List Char) :=
  if cs.head? = some rbrace then some ([], cs.tail)
  else if cs.head? = some ',' ∧ cs.tail.head? = some ' ' then
    match fuel with
    | 0 => none
    | fuel' + 1 =>
      (parseKVFrom cs.tail.tail).bind fun br =>
        (parseJsonKVsAfter fuel' br.2).bind fun bsr =>
          some (br.1 :: bsr.1, bsr.2)
  else none

def parseJsonMapFrom (cs : List Char) : Option (List (String × Int) × List Char) :=
  if cs.head? = some lbrace then
    if cs.tail.head? = some rbrace then some ([], cs.tail.tail)
    else
      (parseKVFrom cs.tail).bind fun br =>
        (parseJsonKVsAfter br.2.length br.2).bind fun bsr =>
          some (br.1 :: bsr.1, bsr.2)
  else none

/-- Model of `json.loads` restricted to the structured forms the engine
round-trips (arrays and objects; a JSON scalar would fail the subsequent
`isinstance` check in `deserialize_value` anyway). -/
def json_loads (s : String) : Option PV :=
  match parseJsonSeqFrom s.data with
  | some (xs, []) => some (PV.seq xs)
  | _ =>
    match parseJsonMapFrom s.data with
    | some (kvs, []) => some (PV.map kvs)
    | _ => none

/-- Model of `ast.literal_eval` restricted to tuple literals (any
non-tuple literal would fail the subsequent `isinstance(value, tuple)`
check in `deserialize_value`, giving the same error outcome). -/
def literal_eval (s : String) : Option PV :=
  match parseTupleFrom s.data with
  | some (xs, []) => some (PV.tuple xs)
  | _ => none

/-! ## Errors and lookup traces

`LookupTrace(provider, namespaces, key, value)` mirrors the named tuple in
`dlt/common/configuration/exceptions.py`; the error type gathers the
exceptions raised by the embedded functions. -/

structure LookupTrace where
  provider : String
  namespaces : List String
  key : String
  value : Option PV
deriving DecidableEq, Repr

inductive ResolveError where
  | valueNotSecret (provider_name full_key : String)
  | cannotBeCoerced (key : String) (hint : SHint)
  | fieldsMissing (spec_name : String) (missing : List (String × List LookupTrace))
  | invalidNativeValue
  | valueError
deriving DecidableEq, Repr

/-! ## Type coercion layer -/

def coerceTextToInt (s : String) : Option Int :=
  match parseIntFrom s.data with
  | some (i, []) => some i
  | _ => none

/-- Modelled from the spec: `coerce_type(to_type, from_type, value)` from
`dlt.common.schema.utils` is a black-box collaborator (§6) applying the
class-pair coercion rules of §4.3 — same-class coercion is the identity,
text renders by the natural decimal / True-False / structured-text form,
textual→integer is a full-string decimal parse, textual→boolean uses the
canonical tokens, and integer↔boolean uses 0/1. -/
def coerce_type (target source : SC) (v : PV) : Option PV :=
  if target = source then some v
  else
    match target, source, v with
    | .text, .bigint, .int i => some (.text (String.mk (renderInt i)))
    | .text, .boolean, .bool b => some (.text (if b then "True" else "False"))
    | .text, .complex, .seq xs => some (.text (jsonDumpSeq xs))
    | .text, .complex, .map kvs => some (.text (jsonDumpMap kvs))
    | .text, .complex, .tuple xs => some (.text (jsonDumpSeq xs))
    | .bigint, .text, .text s => (coerceTextToInt s).map PV.int
    | .boolean, .text, .text s =>
      if s = "True" then some (.bool true)
      else if s = "False" then some (.bool false) else none
    | .bigint, .boolean, .bool b => some (.int (if b then 1 else 0))
    | .boolean, .bigint, .int i =>
      if i = 1 then some (.bool true) else if i = 0 then some (.bool false) else none
    | _, _, _ => none

def textContent : PV → String
  | .text s => s
  | _ => ""

/-- `isinstance(value, hint)` for the structural shapes checked after
parsing a complex value. -/
def isInstanceOfHint (v : PV) (hint : SHint) : Bool :=
  match hint, v with
  | .hTuple, .tuple _ => true
  | .hSeq, .seq _ => true
  | .hMap, .map _ => true
  | _, _ => false

/-- `deserialize_value(key, value, hint)` (resolve.py lines 31-56): on a
textual value with a complex target, parse with `ast.literal_eval` for
tuples and `json.loads` otherwise, then require the exact structural
shape; on differing non-complex classes apply `coerce_type`; any failure
becomes `ConfigValueCannotBeCoercedException`. -/
def deserialize_value (key : String) (value : PV) (hint : SHint) : Except ResolveError PV :=
  if hint = SHint.hAny then .ok value
  else
    let hint_dt := sc_of_hint hint
    let value_dt := sc_of_val value
    if value_dt = SC.text ∧ hint_dt = SC.complex then
      let parsed :=
        if hint = SHint.hTuple then literal_eval (textContent value)
        else json_loads (textContent value)
      match parsed with
      | none => .error (.cannotBeCoerced key hint)
      | some pv =>
        if isInstanceOfHint pv hint then .ok pv
        else .error (.cannotBeCoerced key hint)
    else
      if value_dt ≠ hint_dt then
        match coerce_type hint_dt value_dt value with
        | some v' => .ok v'
        | none => .error (.cannotBeCoerced key hint)
      else .ok value

/-- `serialize_value(value)` (resolve.py lines 59-67): `None` raises
`ValueError`; tuples render as their Python literal text (`str(value)`);
everything else is coerced to the "text" class, which uses the JSON form
for mappings and sequences. -/
def serialize_value (value : Option PV) : Except ResolveError PV :=
  match value with
  | none => .error .valueError
  | some v =>
    match v with
    | .tuple xs => .ok (.text (String.mk (renderTuple xs)))
    | _ =>
      match coerce_type SC.text (sc_of_val v) v with
      | some r => .ok r
      | none => .error .valueError

/-- `type(v)` as a declared hint, for stating the round-trip law. -/
def pvHint : PV → SHint
  | .text _ => .hText
  | .int _ => .hInt
  | .bool _ => .hBool
  | .tuple _ => .hTuple
  | .seq _ => .hSeq
  | .map _ => .hMap

/-- The representable values of the modelled round-trip: every mapping
key is quote-free. -/
def representable : PV → Bool
  | .map kvs => kvs.all (fun kv => goodKey kv.1)
  | _ => true

def serde_round_trip (key : String) (v : PV) : Except ResolveError PV :=
  match serialize_value (some v) with
  | .error e => .error e
  | .ok s => deserialize_value key s (pvHint v)

/-! ## Field-level type hints and the secret trust boundary -/

inductive FieldHint where
  | tSecret                        -- the TSecretValue NewType itself
  | credentialsClass               -- a CredentialsConfiguration subclass
  | contextClass                   -- a ContainerInjectableContext subclass
  | configClass                    -- any other BaseConfiguration subclass
  | optionalOf (inner : FieldHint) -- an Optional[...] wrapper
  | plain (s : SHint)
deriving DecidableEq, Repr

/-- `_is_secret_hint(hint)` (resolve.py lines 373-374): the hint is the
`TSecretValue` NewType itself or a `CredentialsConfiguration` subclass
(an `Optional[...]` wrapper is neither). -/
def _is_secret_hint : FieldHint → Bool
  | .tSecret => true
  | .credentialsClass => true
  | _ => false

/-- `is_optional_type(hint)` from `dlt.common.typing` (spec §3: the
optional flag of a field). -/
def is_optional_type : FieldHint → Bool
  | .optionalOf _ => true
  | _ => false

/-- `extract_inner_type`/`get_config_if_union`/`get_origin`
(resolve.py lines 185-190): strip `Optional` and NewType wrappers;
`TSecretValue` is a NewType over `Any`. -/
def extract_inner : FieldHint → FieldHint
  | .optionalOf h => extract_inner h
  | .tSecret => .plain .hAny
  | h => h

def isContextHint : FieldHint → Bool
  | .contextClass => true
  | _ => false

def isConfigHint : FieldHint → Bool
  | .credentialsClass => true
  | .configClass => true
  | _ => false

/-- The scalar deserialization hint carried by a plain inner hint. -/
def shintOf : FieldHint → SHint
  | .plain s => s
  | _ => .hAny

/-! ## Python truthiness, providers and ambient context -/

def pyTruthy : PV → Bool
  | .text s => !s.isEmpty
  | .int i => !(i == 0)
  | .bool b => b
  | .tuple xs => !xs.isEmpty
  | .seq xs => !xs.isEmpty
  | .map kvs => !kvs.isEmpty

def optTruthy : Option PV → Bool
  | none => false
  | some v => pyTruthy v

/-- Python `value or default_value`. -/
def pyOrDefault (v d : Option PV) : Option PV := if optTruthy v then v else d

/-- The provider contract (spec §6): `get_value(key, hint, *namespaces)`
returns an optional value and the resolved full key name. -/
structure Provider where
  name : String
  supports_secrets : Bool
  supports_namespaces : Bool
  get_value : String → FieldHint → List String → Option PV × String

/-- `ConfigNamespacesContext`: ambient pipeline name and namespaces.
`none` models a missing (falsy) pipeline name. -/
structure ConfigNamespacesContext where
  pipeline_name : Option String
  namespaces : List String

/-- `ConfigProvidersContext`: the ordered provider registry and the
dedicated context provider. -/
structure ConfigProvidersContext where
  providers : List Provider
  context_provider_get : String → FieldHint → Option PV × String

/-- The container state `_resolve_single_value` reads. -/
structure ResolveEnv where
  providers_context : ConfigProvidersContext
  namespaces_context : ConfigNamespacesContext

/-! ## Namespace composition and the lookup engine -/

/-- Python `name.startswith("_")`, on the character list. -/
def startsWithUnderscore (s : String) : Bool := s.data.head? == some '_'

/-- `_apply_embedded_namespaces_to_config_namespace` (lines 360-370): the
innermost embedded namespace replaces the config namespace unless it
starts with `_`; it is dropped from the chain either way, and every
remaining `_`-prefixed namespace is filtered out. -/
def _apply_embedded_namespaces_to_config_namespace
    (config_namespace : String) (embedded_namespaces : List String) :
    String × List String :=
  let pair :=
    match embedded_namespaces.getLast? with
    | none => (config_namespace, embedded_namespaces)
    | some last =>
      (if startsWithUnderscore last then config_namespace else last,
        embedded_namespaces.dropLast)
  (pair.1, pair.2.filter (fun ns => !startsWithUnderscore ns))

/-- The full namespace list of one attempt (lines 320-330): for a
namespace-supporting provider, when a pipeline name or config namespace
is present, the pipeline name is inserted outermost and the config
namespace appended innermost. -/
def attemptNamespaces (supports_ns : Bool) (pipeline_name : Option String)
    (config_namespace : String) (ns : List String) : List String :=
  if (pipeline_name.isSome || !config_namespace.isEmpty) && supports_ns then
    (match pipeline_name with | some pn => [pn] | none => []) ++ ns
      ++ (if config_namespace.isEmpty then [] else [config_namespace])
  else ns

/-- The inner `while True` loop of `look_namespaces` (lines 319-348) for
one provider: query at the current namespaces; if a value comes from a
provider that cannot hold secrets while the hint is secret, raise
`ValueNotSecretException` at once; record a trace entry unless the
provider cannot hold the secret; return the first value; otherwise
`ns.pop()` the innermost namespace and retry down to the empty list.
The fuel argument only makes the recursion structural: callers pass
`ns.length`, which bounds the number of pops. -/
def look_provider (p : Provider) (key : String) (hint : FieldHint)
    (pipeline_name : Option String) (config_namespace : String) :
    Nat → List String → Except ResolveError (Option PV × List LookupTrace)
  | fuel, ns =>
    let full_ns := attemptNamespaces p.supports_namespaces pipeline_name config_namespace ns
    let vk := p.get_value key hint full_ns
    let cant_hold_it := !p.supports_secrets && _is_secret_hint hint
    if vk.1.isSome && cant_hold_it then
      .error (.valueNotSecret p.name vk.2)
    else
      let tr : List LookupTrace := if cant_hold_it then [] else [⟨p.name, full_ns, vk.2, vk.1⟩]
      if vk.1.isSome then .ok (vk.1, tr)
      else if ns.isEmpty then .ok (none, tr)
      else
        match fuel with
        | 0 => .ok (none, tr)
        | fuel' + 1 =>
          match look_provider p key hint pipeline_name config_namespace fuel' ns.dropLast with
          | .error e => .error e
          | .ok (v, trs) => .ok (v, tr ++ trs)

/-- One observed `get_value` call. -/
structure Attempt where
  provider : Provider
  full_ns : List String
  ns_key : String
  value : Option PV

/-- Modelled from the spec (§4.2, the "attempts" of a lookup): the exact
sequence of `get_value` calls `look_provider` makes, mirroring its
control flow — it stops at a found value or at a secret-boundary
violation and otherwise pops namespaces down to the empty list. -/
def look_provider_tried (p : Provider) (key : String) (hint : FieldHint)
    (pipeline_name : Option String) (config_namespace : String) :
    Nat → List String → List Attempt
  | fuel, ns =>
    let full_ns := attemptNamespaces p.supports_namespaces pipeline_name config_namespace ns
    let vk := p.get_value key hint full_ns
    let a : Attempt := ⟨p, full_ns, vk.2, vk.1⟩
    if vk.1.isSome then [a]
    else if ns.isEmpty then [a]
    else
      match fuel with
      | 0 => [a]
      | fuel' + 1 =>
        a :: look_provider_tried p key hint pipeline_name config_namespace fuel' ns.dropLast

/-- `look_namespaces(pipeline_name)` (lines 301-348): walk providers in
registry order; a namespace-supporting provider searches the explicit
namespaces (else the ambient ones) extended with the embedded ones; a
non-namespaced provider is skipped entirely on a pipeline pass and
otherwise queried once with no namespaces; the first value wins, traces
accumulate across providers. -/
def look_namespaces (key : String) (hint : FieldHint) (config_namespace : String)
    (explicit_namespaces embedded_namespaces ctx_namespaces : List String)
    (pipeline_name : Option String) :
    List Provider → Except ResolveError (Option PV × List LookupTrace)
  | [] => .ok (none, [])
  | p :: rest =>
    if p.supports_namespaces then
      let base := if !explicit_namespaces.isEmpty then explicit_namespaces else ctx_namespaces
      let ns := base ++ embedded_namespaces
      match look_provider p key hint pipeline_name config_namespace ns.length ns with
      | .error e => .error e
      | .ok (v, tr) =>
        if v.isSome then .ok (v, tr)
        else
          match look_namespaces key hint config_namespace explicit_namespaces
              embedded_namespaces ctx_namespaces pipeline_name rest with
          | .error e => .error e
          | .ok (v2, tr2) => .ok (v2, tr ++ tr2)
    else
      if pipeline_name.isSome then
        look_namespaces key hint config_namespace explicit_namespaces embedded_namespaces
          ctx_namespaces pipeline_name rest
      else
        match look_provider p key hint pipeline_name config_namespace 0 [] with
        | .error e => .error e
        | .ok (v, tr) =>
          if v.isSome then .ok (v, tr)
          else
            match look_namespaces key hint config_namespace explicit_namespaces
                embedded_namespaces ctx_namespaces pipeline_name rest with
            | .error e => .error e
            | .ok (v2, tr2) => .ok (v2, tr ++ tr2)

/-- Modelled from the spec: the attempts tried across the provider walk of
`look_namespaces`, mirroring its control flow. -/
def look_namespaces_tried (key : String) (hint : FieldHint) (config_namespace : String)
    (explicit_namespaces embedded_namespaces ctx_namespaces : List String)
    (pipeline_name : Option String) :
    List Provider → List Attempt
  | [] => []
  | p :: rest =>
    if p.supports_namespaces then
      let base := if !explicit_namespaces.isEmpty then explicit_namespaces else ctx_namespaces
      let ns := base ++ embedded_namespaces
      let tried := look_provider_tried p key hint pipeline_name config_namespace ns.length ns
      match look_provider p key hint pipeline_name config_namespace ns.length ns with
      | .error _ => tried
      | .ok (v, _) =>
        if v.isSome then tried
        else tried ++ look_namespaces_tried key hint config_namespace explicit_namespaces
          embedded_namespaces ctx_namespaces pipeline_name rest
    else
      if pipeline_name.isSome then
        look_namespaces_tried key hint config_namespace explicit_namespaces
          embedded_namespaces ctx_namespaces pipeline_name rest
      else
        let tried := look_provider_tried p key hint pipeline_name config_namespace 0 []
        match look_provider p key hint pipeline_name config_namespace 0 [] with
        | .error _ => tried
        | .ok (v, _) =>
          if v.isSome then tried
          else tried ++ look_namespaces_tried key hint config_namespace explicit_namespaces
            embedded_namespaces ctx_namespaces pipeline_name rest

/-- `_resolve_single_value` (lines 268-357): context hints delegate to the
context provider alone; configuration hints are never looked up; otherwise
compose namespaces, then run `look_namespaces` first with the ambient
pipeline name (when present) and then without, keeping the first value
and accumulating traces across both passes. -/
def _resolve_single_value (env : ResolveEnv) (key : String)
    (hint inner_hint : FieldHint) (config_namespace : String)
    (explicit_namespaces embedded_namespaces : List String) :
    Except ResolveError (Option PV × List LookupTrace) :=
  if isContextHint inner_hint then
    .ok ((env.providers_context.context_provider_get key inner_hint).1, [])
  else if isConfigHint inner_hint then
    .ok (none, [])
  else
    let ce := _apply_embedded_namespaces_to_config_namespace config_namespace embedded_namespaces
    let pn := env.namespaces_context.pipeline_name
    let first :=
      if pn.isSome then
        look_namespaces key hint ce.1 explicit_namespaces ce.2
          env.namespaces_context.namespaces pn env.providers_context.providers
      else .ok (none, [])
    match first with
    | .error e => .error e
    | .ok (v1, t1) =>
      if v1.isSome then .ok (v1, t1)
      else
        match look_namespaces key hint ce.1 explicit_namespaces ce.2
            env.namespaces_context.namespaces none env.providers_context.providers with
        | .error e => .error e
        | .ok (v2, t2) => .ok (v2, t1 ++ t2)

/-- Modelled from the spec: all attempts tried by `_resolve_single_value`
across both passes, mirroring its control flow. -/
def _resolve_single_value_tried (env : ResolveEnv) (key : String)
    (hint inner_hint : FieldHint) (config_namespace : String)
    (explicit_namespaces embedded_namespaces : List String) : List Attempt :=
  if isContextHint inner_hint then []
  else if isConfigHint inner_hint then []
  else
    let ce := _apply_embedded_namespaces_to_config_namespace config_namespace embedded_namespaces
    let pn := env.namespaces_context.pipeline_name
    let t1 :=
      if pn.isSome then
        look_namespaces_tried key hint ce.1 explicit_namespaces ce.2
          env.namespaces_context.namespaces pn env.providers_context.providers
      else []
    let first :=
      if pn.isSome then
        look_namespaces key hint ce.1 explicit_namespaces ce.2
          env.namespaces_context.namespaces pn env.providers_context.providers
      else .ok (none, [])
    match first with
    | .error _ => t1
    | .ok (v1, _) =>
      if v1.isSome then t1
      else t1 ++ look_namespaces_tried key hint ce.1 explicit_namespaces ce.2
        env.namespaces_context.namespaces none env.providers_context.providers

/-! ### Engine lemmas -/

/-- The namespace lists attempted by the pop loop, most specific first:
`ns`, `ns.dropLast`, …, `[]` (fuel-truncated exactly as the loop is). -/
def dropLastChain : Nat → List String → List (List String)
  | _, [] => [[]]
  | 0, ns => [ns]
  | fuel + 1, ns => ns :: dropLastChain fuel ns.dropLast

/-- The trace entry an attempt would produce. -/
def attemptToTrace (a : Attempt) : LookupTrace := ⟨a.provider.name, a.full_ns, a.ns_key, a.value⟩

/-- `cant_hold_it` of an attempt: the queried provider cannot hold
secrets while the hint demands secrecy. -/
def rejectedBoundary (hint : FieldHint) (a : Attempt) : Bool :=
  !a.provider.supports_secrets && _is_secret_hint hint

/-! ### Concrete scenarios -/

/-- A namespace-supporting provider with no values at all. -/
def noneProvider : Provider :=
  { name := "P", supports_secrets := true, supports_namespaces := true,
    get_value := fun k _ _ => (none, k) }

/-- Scenario of §8 "Namespace fallback ordering": P1 holds a value only at
namespace path `["a", "b"]`. -/
def P1 : Provider :=
  { name := "P1", supports_secrets := true, supports_namespaces := true,
    get_value := fun k _ ns => (if ns = ["a", "b"] then some (PV.text "v1") else none, k) }

/-- P2 holds a value only at the empty namespace path. -/
def P2 : Provider :=
  { name := "P2", supports_secrets := true, supports_namespaces := true,
    get_value := fun k _ ns => (if ns = [] then some (PV.text "v2") else none, k) }

/-- Ambient context of the §8 scenario: no pipeline name, namespaces
`["a", "b"]`, providers `[P1, P2]`. -/
def env2 : ResolveEnv :=
  { providers_context := { providers := [P1, P2], context_provider_get := fun k _ => (none, k) },
    namespaces_context := { pipeline_name := none, namespaces := ["a", "b"] } }

/-- The same scenario with both providers valueless. -/
def env0 : ResolveEnv :=
  { providers_context :=
      { providers := [{ P1 with get_value := fun k _ _ => (none, k) },
                      { P2 with get_value := fun k _ _ => (none, k) }],
        context_provider_get := fun k _ => (none, k) },
    namespaces_context := { pipeline_name := none, namespaces := ["a", "b"] } }

/-- A provider that cannot hold secrets and has a value everywhere. -/
def envProvider : Provider :=
  { name := "env", supports_secrets := false, supports_namespaces := true,
    get_value := fun k _ _ => (some (PV.text "pwd"), k) }

/-- A provider that cannot hold secrets and has no values. -/
def envEmptyProvider : Provider :=
  { name := "env", supports_secrets := false, supports_namespaces := true,
    get_value := fun k _ _ => (none, k) }

def envSecret : ResolveEnv :=
  { providers_context := { providers := [envProvider], context_provider_get := fun k _ => (none, k) },
    namespaces_context := { pipeline_name := none, namespaces := [] } }

def envSecretEmpty : ResolveEnv :=
  { providers_context :=
      { providers := [envEmptyProvider], context_provider_get := fun k _ => (none, k) },
    namespaces_context := { pipeline_name := none, namespaces := [] } }

/-! ## Per-field resolution and the orchestrator -/

structure ConfigField where
  name : String
  hint : FieldHint
  value : Option PV

/-- A `BaseConfiguration` instance: class name (for the missing-fields
exception), own `__namespace__` (empty string when absent), resolvable
fields with their current values, and the `__is_resolved__` /
`__exception__` lifecycle attributes. -/
structure ConfigObject where
  spec_name : String
  own_namespace : String
  fields : List ConfigField
  resolved_flag : Bool
  stored_exception : Option ResolveError

/-- Modelled from the spec: `BaseConfiguration.is_resolved()` (declared
outside the embedded file) reads the resolution lifecycle flag
(§3 `isResolved`). -/
def is_resolved (c : ConfigObject) : Bool := c.resolved_flag

/-- `explicit_values.get(key)` guarded by `if explicit_values:`. -/
def explicitValueOf (explicit_values : List (String × PV)) (key : String) : Option PV :=
  if explicit_values.isEmpty then none
  else (explicit_values.find? (fun kv => kv.1 == key)).map (fun kv => kv.2)

/-- `_resolve_config_field` (lines 174-242), for fields whose inner hint
is not a nested configuration: a truthy explicit value wins with an empty
trace and is never deserialized (`value is not explicit_value`);
otherwise the lookup engine runs and a found value is deserialized;
context-typed values pass through whole; finally Python's
`value or default_value` applies.  The embedded-configuration recursion
(lines 204-234) is outside this model: for config-class inner hints the
engine returns no value and the recursive branch is not taken here. -/
def _resolve_config_field (env : ResolveEnv) (key : String) (hint : FieldHint)
    (default_value explicit_value : Option PV) (config_namespace : String)
    (explicit_namespaces embedded_namespaces : List String) :
    Except ResolveError (Option PV × List LookupTrace) :=
  let inner_hint := extract_inner hint
  match (if optTruthy explicit_value then Except.ok (explicit_value, ([] : List LookupTrace))
         else _resolve_single_value env key hint inner_hint config_namespace
           explicit_namespaces embedded_namespaces) with
  | .error e => .error e
  | .ok (value, traces) =>
    if isConfigHint inner_hint then
      .ok (pyOrDefault value default_value, traces)
    else if isContextHint inner_hint then
      .ok (pyOrDefault value default_value, traces)
    else
      match value with
      | none => .ok (pyOrDefault none default_value, traces)
      | some w =>
        if optTruthy explicit_value then
          .ok (pyOrDefault (some w) default_value, traces)
        else
          match deserialize_value key w (shintOf inner_hint) with
          | .error e => .error e
          | .ok w2 => .ok (pyOrDefault (some w2) default_value, traces)

/-- Modelled from the spec: the provider attempts tried while resolving
one field — none when a truthy explicit value is supplied. -/
def _resolve_config_field_tried (env : ResolveEnv) (key : String) (hint : FieldHint)
    (explicit_value : Option PV) (config_namespace : String)
    (explicit_namespaces embedded_namespaces : List String) : List Attempt :=
  if optTruthy explicit_value then []
  else _resolve_single_value_tried env key hint (extract_inner hint) config_namespace
    explicit_namespaces embedded_namespaces

/-- The field loop of `_resolve_config_fields` (lines 153-168): resolve
each field against its own current value as default, collect the
non-optional fields that remained absent together with their traces, and
write resolved values back into the fields. -/
def resolveFieldsPass (env : ResolveEnv) (config_namespace : String)
    (explicit_values : List (String × PV))
    (explicit_namespaces embedded_namespaces : List String) :
    List ConfigField → Except ResolveError (List ConfigField × List (String × List LookupTrace))
  | [] => .ok ([], [])
  | f :: rest =>
    match _resolve_config_field env f.name f.hint f.value
        (explicitValueOf explicit_values f.name) config_namespace explicit_namespaces
        embedded_namespaces with
    | .error e => .error e
    | .ok (current_value, traces) =>
      let unres := if !(is_optional_type f.hint) && current_value.isNone
        then [(f.name, traces)] else []
      match resolveFieldsPass env config_namespace explicit_values explicit_namespaces
          embedded_namespaces rest with
      | .error e => .error e
      | .ok (rest_fields, rest_unres) =>
        .ok ({ f with value := current_value } :: rest_fields, unres ++ rest_unres)

/-- Modelled from the spec: provider attempts across the field loop,
stopping where an exception aborts it. -/
def resolveFieldsPassTried (env : ResolveEnv) (config_namespace : String)
    (explicit_values : List (String × PV))
    (explicit_namespaces embedded_namespaces : List String) :
    List ConfigField → List Attempt
  | [] => []
  | f :: rest =>
    let tried := _resolve_config_field_tried env f.name f.hint
      (explicitValueOf explicit_values f.name) config_namespace explicit_namespaces
      embedded_namespaces
    match _resolve_config_field env f.name f.hint f.value
        (explicitValueOf explicit_values f.name) config_namespace explicit_namespaces
        embedded_namespaces with
    | .error _ => tried
    | .ok _ => tried ++ resolveFieldsPassTried env config_namespace explicit_values
        explicit_namespaces embedded_namespaces rest

/-- `_resolve_config_fields` (lines 142-171): run the field loop and, if
any non-optional field stayed absent, raise `ConfigFieldMissingException`
naming the configuration and carrying every missing field with its full
trace list. -/
def _resolve_config_fields (env : ResolveEnv) (config : ConfigObject)
    (explicit_values : List (String × PV))
    (explicit_namespaces embedded_namespaces : List String) :
    Except ResolveError ConfigObject :=
  match resolveFieldsPass env config.own_namespace explicit_values explicit_namespaces
      embedded_namespaces config.fields with
  | .error e => .error e
  | .ok (fields2, unres) =>
    if unres.isEmpty then .ok { config with fields := fields2 }
    else .error (.fieldsMissing config.spec_name unres)

/-- The non-optional fields the pass leaves absent, stated as an
independent scan of the declared field list (used to verify that the
raised exception lists exactly these, not just the first). -/
def missingOf (env : ResolveEnv) (config_namespace : String)
    (explicit_values : List (String × PV))
    (explicit_namespaces embedded_namespaces : List String) :
    List ConfigField → List (String × List LookupTrace)
  | [] => []
  | f :: rest =>
    (match _resolve_config_field env f.name f.hint f.value
        (explicitValueOf explicit_values f.name) config_namespace explicit_namespaces
        embedded_namespaces with
     | .ok (none, traces) => if is_optional_type f.hint then [] else [(f.name, traces)]
     | _ => []) ++
    missingOf env config_namespace explicit_values explicit_namespaces embedded_namespaces rest

/-- The outcome of `parse_native_representation`: success mutates the
object, `ValueError` signals a bad native value, `NotImplementedError`
signals that the type has no native form. -/
inductive NativeOutcome where
  | parsed (c : ConfigObject)
  | valueError
  | notImplemented

/-- The class-level behaviour of a configuration type: its native-value
parser and its `on_resolved`/`on_partial` MRO hook chains (modelled as
single functions). -/
structure ConfigClass where
  parse_native_rep : ConfigObject → PV → NativeOutcome
  on_resolved_hook : ConfigObject → ConfigObject
  on_partial_hook : ConfigObject → ConfigObject

def isMappingVal : Option PV → Bool
  | some (.map _) => true
  | _ => false

/-- A mapping explicit value applied field by field. -/
def mappingEntries : Option PV → List (String × PV)
  | some (.map kvs) => kvs.map (fun kv => (kv.1, PV.int kv.2))
  | _ => []

/-- `_resolve_configuration` (lines 90-139): a no-op on an already
resolved object; otherwise clear the stored exception, consume a truthy
non-mapping explicit value through `parse_native_representation`
(`ValueError` becomes `InvalidNativeValue`, `NotImplementedError` is
swallowed), resolve field by field when still unresolved, then run the
`on_resolved` hooks and set the resolved flag — unless required fields
were missing, in which case the exception is stored, `on_partial` runs,
and the error is re-raised only when the object is still unresolved and
partial acceptance is off. -/
def _resolve_configuration (env : ResolveEnv) (cls : ConfigClass) (config : ConfigObject)
    (explicit_namespaces embedded_namespaces : List String)
    (explicit_value : Option PV) (accept_partial_flag : Bool) :
    Except ResolveError ConfigObject :=
  if is_resolved config then .ok config
  else
    let config := { config with stored_exception := none }
    match (if optTruthy explicit_value && !(isMappingVal explicit_value) then
             match explicit_value with
             | some w =>
               match cls.parse_native_rep config w with
               | .valueError => Except.error ResolveError.invalidNativeValue
               | .notImplemented => Except.ok (config, (none : Option PV))
               | .parsed c2 => Except.ok (c2, (none : Option PV))
             | none => Except.ok (config, explicit_value)
           else Except.ok (config, explicit_value)) with
    | .error e => .error e
    | .ok (config, explicit_value) =>
      if !(is_resolved config) then
        match resolveFieldsPass env config.own_namespace (mappingEntries explicit_value)
            explicit_namespaces embedded_namespaces config.fields with
        | .error e => .error e
        | .ok (fields2, unres) =>
          let config := { config with fields := fields2 }
          if unres.isEmpty then
            Except.ok { cls.on_resolved_hook config with resolved_flag := true }
          else
            let cm := ResolveError.fieldsMissing config.spec_name unres
            let config := { config with stored_exception := some cm }
            let config := cls.on_partial_hook config
            if is_resolved config then Except.ok (cls.on_resolved_hook config)
            else if !accept_partial_flag then Except.error cm
            else Except.ok config
      else
        Except.ok { cls.on_resolved_hook config with resolved_flag := true }

/-- Modelled from the spec: the provider attempts of one orchestrator
call — none at all when the object is already resolved. -/
def _resolve_configuration_tried (env : ResolveEnv) (cls : ConfigClass)
    (config : ConfigObject) (explicit_namespaces embedded_namespaces : List String)
    (explicit_value : Option PV) : List Attempt :=
  if is_resolved config then []
  else
    let config := { config with stored_exception := none }
    match (if optTruthy explicit_value && !(isMappingVal explicit_value) then
             match explicit_value with
             | some w =>
               match cls.parse_native_rep config w with
               | .valueError => Except.error ResolveError.invalidNativeValue
               | .notImplemented => Except.ok (config, (none : Option PV))
               | .parsed c2 => Except.ok (c2, (none : Option PV))
             | none => Except.ok (config, explicit_value)
           else Except.ok (config, explicit_value)) with
    | .error _ => []
    | .ok (config, explicit_value) =>
      if !(is_resolved config) then
        resolveFieldsPassTried env config.own_namespace (mappingEntries explicit_value)
          explicit_namespaces embedded_namespaces config.fields
      else []

/-! ### Fixtures for the field/orchestrator claims -/

/-- A provider holding text "7" under the empty namespace path. -/
def intProvider : Provider :=
  { name := "ENV", supports_secrets := true, supports_namespaces := true,
    get_value := fun k _ ns => (if ns = [] then some (PV.text "7") else none, k) }

def envC4 : ResolveEnv :=
  { providers_context :=
      { providers := [intProvider], context_provider_get := fun k _ => (none, k) },
    namespaces_context := { pipeline_name := none, namespaces := [] } }

def envMissing : ResolveEnv :=
  { providers_context :=
      { providers := [noneProvider], context_provider_get := fun k _ => (none, k) },
    namespaces_context := { pipeline_name := none, namespaces := [] } }

/-- Two required text fields, nothing resolvable (§8
"Missing-field aggregation"). -/
def credsConfig : ConfigObject :=
  { spec_name := "CredsConfiguration", own_namespace := "",
    fields := [⟨"password", .plain .hText, none⟩, ⟨"api_key", .plain .hText, none⟩],
    resolved_flag := false, stored_exception := none }

def trivialClass : ConfigClass :=
  { parse_native_rep := fun _ _ => .notImplemented,
    on_resolved_hook := id, on_partial_hook := id }

def resolvedConfig : ConfigObject :=
  { spec_name := "C", own_namespace := "", fields := [],
    resolved_flag := true, stored_exception := none }

/-! ## Theorems -/

theorem digitChar_spec : ∀ d : Nat, d < 10 →
    isDigitChar (digitChar d) = true ∧ charVal (digitChar d) = d := by decide

theorem natDigitsAux_eq_digits (fuel : Nat) :
    ∀ n : Nat, n ≤ fuel → natDigitsAux fuel n = ((Nat.digits 10 n).map digitChar).reverse := by
  induction fuel with
  | zero =>
    intro n hn
    interval_cases n
    simp [natDigitsAux]
  | succ f ih =>
    intro n hn
    by_cases h0 : n = 0
    · simp [natDigitsAux, h0]
    · have hpos : 0 < n := Nat.pos_of_ne_zero h0
      have hdiv : n / 10 ≤ f := by
        have := Nat.div_lt_self hpos (by norm_num : 1 < 10)
        omega
      have hrec := ih (n / 10) hdiv
      rw [Nat.digits_def' (by norm_num : 1 < 10) hpos]
      simp [natDigitsAux, h0, hrec]

theorem renderNat_all_digits (n : Nat) : ∀ c ∈ renderNat n, isDigitChar c = true := by
  by_cases h0 : n = 0
  · subst h0; intro c hc; simp [renderNat] at hc; subst hc; decide
  · intro c hc
    rw [renderNat, if_neg h0, natDigitsAux_eq_digits n n le_rfl] at hc
    simp only [List.mem_reverse, List.mem_map] at hc
    obtain ⟨d, hd, rfl⟩ := hc
    exact (digitChar_spec d (Nat.digits_lt_base (by norm_num) hd)).1

theorem renderNat_ne_nil (n : Nat) : renderNat n ≠ [] := by
  by_cases h0 : n = 0
  · simp [renderNat, h0]
  · rw [renderNat, if_neg h0, natDigitsAux_eq_digits n n le_rfl]
    simp [Nat.digits_ne_nil_iff_ne_zero, h0]

theorem takeWhile_append_all {p : Char → Bool} :
    ∀ (a b : List Char), (∀ c ∈ a, p c = true) →
    (∀ c, b.head? = some c → p c = false) →
    (a ++ b).takeWhile p = a ∧ (a ++ b).dropWhile p = b := by
  intro a
  induction a with
  | nil =>
    intro b _ hb
    cases b with
    | nil => simp
    | cons c t =>
      have := hb c rfl
      simp [List.takeWhile_cons, List.dropWhile_cons, this]
  | cons x xs ih =>
    intro b ha hb
    have hx : p x = true := ha x (by simp)
    have := ih b (fun c hc => ha c (by simp [hc])) hb
    simp [List.takeWhile_cons, List.dropWhile_cons, hx, this.1, this.2]

theorem foldl_render_digits (L : List Nat) (hL : ∀ d ∈ L, d < 10) :
    ∀ acc : Nat,
      ((L.map digitChar).reverse).foldl (fun a c => a * 10 + charVal c) acc =
        acc * 10 ^ L.length + Nat.ofDigits 10 L := by
  induction L with
  | nil => intro acc; simp [Nat.ofDigits]
  | cons d T ih =>
    intro acc
    have hd : d < 10 := hL d (by simp)
    have hT : ∀ x ∈ T, x < 10 := fun x hx => hL x (by simp [hx])
    have hcv : charVal (digitChar d) = d := (digitChar_spec d hd).2
    simp only [List.map_cons, List.reverse_cons, List.foldl_append, List.foldl_cons,
      List.foldl_nil, ih hT acc, hcv, Nat.ofDigits_cons, List.length_cons]
    ring

theorem parseNatFrom_render (n : Nat) (rest : List Char)
    (hrest : ∀ c, rest.head? = some c → isDigitChar c = false) :
    parseNatFrom (renderNat n ++ rest) = some (n, rest) := by
  have hall := renderNat_all_digits n
  have htd := takeWhile_append_all (renderNat n) rest hall hrest
  have hne := renderNat_ne_nil n
  have hval : (renderNat n).foldl (fun a c => a * 10 + charVal c) 0 = n := by
    by_cases h0 : n = 0
    · subst h0; rfl
    · rw [renderNat, if_neg h0, natDigitsAux_eq_digits n n le_rfl,
        foldl_render_digits _ (fun d hd => Nat.digits_lt_base (by norm_num) hd) 0,
        Nat.ofDigits_digits]
      simp
  rw [parseNatFrom]
  simp only [htd.1, htd.2, hval]
  rw [if_neg (by simpa [List.isEmpty_iff] using hne)]

theorem renderNat_head_not_dash (n : Nat) (rest : List Char) :
    ¬ (renderNat n ++ rest).head? = some '-' := by
  intro h
  cases hr : renderNat n with
  | nil => exact renderNat_ne_nil n hr
  | cons x t =>
    rw [hr] at h
    simp at h
    have hx := renderNat_all_digits n x (by rw [hr]; simp)
    rw [h] at hx
    exact absurd hx (by decide)

theorem parseIntFrom_render (i : Int) (rest : List Char)
    (hrest : ∀ c, rest.head? = some c → isDigitChar c = false) :
    parseIntFrom (renderInt i ++ rest) = some (i, rest) := by
  by_cases hneg : i < 0
  · rw [renderInt, if_pos hneg, parseIntFrom]
    simp only [List.cons_append]
    rw [if_pos (show ('-' :: (renderNat i.natAbs ++ rest)).head? = some '-' from rfl)]
    simp only [List.tail_cons]
    rw [parseNatFrom_render i.natAbs rest hrest]
    have habs : -(i.natAbs : Int) = i := by omega
    show some (-(i.natAbs : Int), rest) = some (i, rest)
    rw [habs]
  · rw [renderInt, if_neg hneg, parseIntFrom]
    rw [if_neg (renderNat_head_not_dash i.toNat rest)]
    rw [parseNatFrom_render i.toNat rest hrest]
    have habs : ((i.toNat : Int)) = i := by omega
    simp [habs]

/-! ### Inversion lemmas for the structured-text forms -/

theorem renderInt_head_cases (i : Int) (Y : List Char) :
    ∀ c, (renderInt i ++ Y).head? = some c → (isDigitChar c = true ∨ c = '-') := by
  rw [renderInt]
  split
  · intro c h
    simp only [List.cons_append, List.head?_cons, Option.some.injEq] at h
    right; exact h.symm
  · intro c h
    cases hr : renderNat i.toNat with
    | nil => exact absurd hr (renderNat_ne_nil _)
    | cons x t =>
      left
      rw [hr] at h
      simp only [List.cons_append, List.head?_cons, Option.some.injEq] at h
      subst h
      exact renderNat_all_digits i.toNat x (by rw [hr]; simp)

theorem renderIntsTail_head_not_digit (is : List Int) (t : Char)
    (ht : isDigitChar t = false) (rest : List Char) :
    ∀ c, (renderIntsTail is ++ t :: rest).head? = some c → isDigitChar c = false := by
  cases is with
  | nil =>
    intro c h
    simp only [renderIntsTail, List.nil_append, List.head?_cons, Option.some.injEq] at h
    subst h; exact ht
  | cons i is =>
    intro c h
    simp only [renderIntsTail, List.cons_append, List.head?_cons, Option.some.injEq] at h
    subst h; decide

theorem renderIntsSep_cons (x : Int) (xs : List Int) :
    renderIntsSep (x :: xs) = renderInt x ++ renderIntsTail xs := by
  induction xs generalizing x with
  | nil => simp [renderIntsSep, renderIntsTail]
  | cons y ys ih =>
    show renderInt x ++ ',' :: ' ' :: renderIntsSep (y :: ys) = _
    rw [ih y, renderIntsTail]

theorem renderIntsTail_length (is : List Int) : is.length ≤ (renderIntsTail is).length := by
  induction is with
  | nil => simp [renderIntsTail]
  | cons i is ih => simp only [renderIntsTail, List.length_cons, List.length_append]; omega

theorem parseJsonIntsAfter_close (fuel : Nat) (rest : List Char) :
    parseJsonIntsAfter fuel (']' :: rest) = some ([], rest) := by
  cases fuel <;> rfl

theorem parseJsonIntsAfter_step (f : Nat) (X : List Char) :
    parseJsonIntsAfter (f + 1) (',' :: ' ' :: X) =
      (parseIntFrom X).bind fun ir =>
        (parseJsonIntsAfter f ir.2).bind fun isr =>
          some (ir.1 :: isr.1, isr.2) := rfl

theorem parseJsonIntsAfter_render (is : List Int) :
    ∀ fuel, is.length ≤ fuel → ∀ rest : List Char,
      parseJsonIntsAfter fuel (renderIntsTail is ++ ']' :: rest) = some (is, rest) := by
  induction is with
  | nil =>
    intro fuel _ rest
    rw [renderIntsTail, List.nil_append, parseJsonIntsAfter_close]
  | cons i is ih =>
    intro fuel hf rest
    obtain ⟨f, rfl⟩ : ∃ f, fuel = f + 1 := ⟨fuel - 1, by simp at hf; omega⟩
    rw [renderIntsTail]
    simp only [List.cons_append, List.append_assoc]
    rw [parseJsonIntsAfter_step]
    rw [parseIntFrom_render i _ (renderIntsTail_head_not_digit is ']' (by decide) rest)]
    simp only [Option.some_bind]
    rw [ih f (by simp at hf; omega) rest]
    rfl

theorem parseJsonSeqFrom_render (xs : List Int) (rest : List Char) :
    parseJsonSeqFrom ('[' :: (renderIntsSep xs ++ ']' :: rest)) = some (xs, rest) := by
  cases xs with
  | nil =>
    rw [renderIntsSep, List.nil_append]
    rfl
  | cons x xs =>
    rw [renderIntsSep_cons, List.append_assoc]
    have hne : ¬ ('[' :: (renderInt x ++ (renderIntsTail xs ++ ']' :: rest))).tail.head?
        = some ']' := by
      simp only [List.tail_cons]
      intro h
      cases hh : (renderInt x ++ (renderIntsTail xs ++ ']' :: rest)).head? with
      | none => rw [hh] at h; exact Option.noConfusion h
      | some c =>
        rw [hh] at h
        rcases renderInt_head_cases x _ c hh with hd | hd
        · rw [Option.some.inj h] at hd; exact absurd hd (by decide)
        · rw [Option.some.inj h] at hd; exact absurd hd (by decide)
    rw [parseJsonSeqFrom]
    rw [if_pos (show ('[' :: (renderInt x ++ (renderIntsTail xs ++ ']' :: rest))).head?
      = some '[' from rfl)]
    rw [if_neg hne]
    simp only [List.tail_cons]
    rw [parseIntFrom_render x _ (renderIntsTail_head_not_digit xs ']' (by decide) rest)]
    simp only [Option.some_bind]
    have hlen : xs.length ≤ (renderIntsTail xs ++ ']' :: rest).length := by
      have := renderIntsTail_length xs
      simp only [List.length_append, List.length_cons]
      omega
    rw [parseJsonIntsAfter_render xs _ hlen rest]
    rfl

theorem parseTupleIntsAfter_close (fuel : Nat) (rest : List Char) :
    parseTupleIntsAfter fuel (')' :: rest) = some ([], rest) := by
  cases fuel <;> rfl

theorem parseTupleIntsAfter_trailing (fuel : Nat) (rest : List Char) :
    parseTupleIntsAfter fuel (',' :: ')' :: rest) = some ([], rest) := by
  cases fuel <;> rfl

theorem parseTupleIntsAfter_step (f : Nat) (X : List Char) :
    parseTupleIntsAfter (f + 1) (',' :: ' ' :: X) =
      (parseIntFrom X).bind fun ir =>
        (parseTupleIntsAfter f ir.2).bind fun isr =>
          some (ir.1 :: isr.1, isr.2) := rfl

theorem parseTupleIntsAfter_render (is : List Int) :
    ∀ fuel, is.length ≤ fuel → ∀ rest : List Char,
      parseTupleIntsAfter fuel (renderIntsTail is ++ ')' :: rest) = some (is, rest) := by
  induction is with
  | nil =>
    intro fuel _ rest
    rw [renderIntsTail, List.nil_append, parseTupleIntsAfter_close]
  | cons i is ih =>
    intro fuel hf rest
    obtain ⟨f, rfl⟩ : ∃ f, fuel = f + 1 := ⟨fuel - 1, by simp at hf; omega⟩
    rw [renderIntsTail]
    simp only [List.cons_append, List.append_assoc]
    rw [parseTupleIntsAfter_step]
    rw [parseIntFrom_render i _ (renderIntsTail_head_not_digit is ')' (by decide) rest)]
    simp only [Option.some_bind]
    rw [ih f (by simp at hf; omega) rest]
    rfl

theorem parseTupleFrom_render (xs : List Int) (rest : List Char) :
    parseTupleFrom (renderTuple xs ++ rest) = some (xs, rest) := by
  match xs with
  | [] =>
    rw [renderTuple]
    rfl
  | [x] =>
    rw [renderTuple]
    simp only [List.cons_append, List.append_assoc, List.nil_append]
    have hne : ¬ ('(' :: (renderInt x ++ ',' :: ')' :: rest)).tail.head? = some ')' := by
      simp only [List.tail_cons]
      intro h
      cases hh : (renderInt x ++ ',' :: ')' :: rest).head? with
      | none => rw [hh] at h; exact Option.noConfusion h
      | some c =>
        rw [hh] at h
        rcases renderInt_head_cases x _ c hh with hd | hd
        · rw [Option.some.inj h] at hd; exact absurd hd (by decide)
        · rw [Option.some.inj h] at hd; exact absurd hd (by decide)
    rw [parseTupleFrom]
    rw [if_pos (show ('(' :: (renderInt x ++ ',' :: ')' :: rest)).head? = some '(' from rfl)]
    rw [if_neg hne]
    simp only [List.tail_cons]
    rw [parseIntFrom_render x (',' :: ')' :: rest) (by intro c h; rw [Option.some.inj h.symm]; decide)]
    simp only [Option.some_bind]
    rw [parseTupleIntsAfter_trailing]
    rfl
  | x :: y :: ys =>
    rw [show renderTuple (x :: y :: ys)
      = '(' :: (renderInt x ++ (renderIntsTail (y :: ys) ++ [')'])) from rfl]
    simp only [List.cons_append, List.append_assoc, List.nil_append]
    have hne : ¬ ('(' :: (renderInt x ++ (renderIntsTail (y :: ys) ++ ')' :: rest))).tail.head?
        = some ')' := by
      simp only [List.tail_cons]
      intro h
      cases hh : (renderInt x ++ (renderIntsTail (y :: ys) ++ ')' :: rest)).head? with
      | none => rw [hh] at h; exact Option.noConfusion h
      | some c =>
        rw [hh] at h
        rcases renderInt_head_cases x _ c hh with hd | hd
        · rw [Option.some.inj h] at hd; exact absurd hd (by decide)
        · rw [Option.some.inj h] at hd; exact absurd hd (by decide)
    rw [parseTupleFrom]
    rw [if_pos (show ('(' :: (renderInt x ++ (renderIntsTail (y :: ys) ++ ')' :: rest))).head?
      = some '(' from rfl)]
    rw [if_neg hne]
    simp only [List.tail_cons]
    rw [parseIntFrom_render x _ (renderIntsTail_head_not_digit (y :: ys) ')' (by decide) rest)]
    simp only [Option.some_bind]
    have hlen : (y :: ys).length ≤ (renderIntsTail (y :: ys) ++ ')' :: rest).length := by
      have := renderIntsTail_length (y :: ys)
      simp only [List.length_append, List.length_cons]
      simp at this ⊢
      omega
    rw [parseTupleIntsAfter_render (y :: ys) _ hlen rest]
    rfl

theorem string_mk_data (s : String) : String.mk s.data = s := rfl

theorem renderKVsTail_head_not_digit (kvs : List (String × Int)) (t : Char)
    (ht : isDigitChar t = false) (rest : List Char) :
    ∀ c, (renderKVsTail kvs ++ t :: rest).head? = some c → isDigitChar c = false := by
  cases kvs with
  | nil =>
    intro c h
    simp only [renderKVsTail, List.nil_append, List.head?_cons, Option.some.injEq] at h
    subst h; exact ht
  | cons p kvs =>
    obtain ⟨k, v⟩ := p
    intro c h
    simp only [renderKVsTail, List.cons_append, List.head?_cons, Option.some.injEq] at h
    subst h; decide

theorem renderKVsSep_cons (k : String) (v : Int) (kvs : List (String × Int)) :
    renderKVsSep ((k, v) :: kvs) = renderKV k v ++ renderKVsTail kvs := by
  induction kvs generalizing k v with
  | nil => simp [renderKVsSep, renderKVsTail]
  | cons p ps ih =>
    obtain ⟨k2, v2⟩ := p
    show renderKV k v ++ ',' :: ' ' :: renderKVsSep ((k2, v2) :: ps) = _
    rw [ih k2 v2, renderKVsTail]

theorem renderKVsTail_length (kvs : List (String × Int)) :
    kvs.length ≤ (renderKVsTail kvs).length := by
  induction kvs with
  | nil => simp [renderKVsTail]
  | cons p kvs ih =>
    obtain ⟨k, v⟩ := p
    simp only [renderKVsTail, List.length_cons, List.length_append]
    omega

theorem parseKVFrom_render (k : String) (v : Int) (Y : List Char)
    (hk : goodKey k = true)
    (hY : ∀ c, Y.head? = some c → isDigitChar c = false) :
    parseKVFrom (renderKV k v ++ Y) = some ((k, v), Y) := by
  have hall : ∀ c ∈ k.data, notQuote c = true := List.all_eq_true.mp hk
  have htd := takeWhile_append_all k.data (quoteChar :: ':' :: ' ' :: (renderInt v ++ Y)) hall
    (by
      intro c hc
      have hcq : c = quoteChar := (Option.some.inj hc).symm
      rw [hcq]; decide)
  rw [renderKV]
  simp only [List.cons_append, List.append_assoc]
  rw [parseKVFrom]
  rw [if_pos (show (quoteChar :: (k.data ++ (quoteChar :: ':' :: ' ' :: (renderInt v ++ Y)))).head?
    = some quoteChar from rfl)]
  simp only [List.tail_cons, htd.1, htd.2]
  rw [if_pos ⟨rfl, rfl, rfl⟩]
  rw [parseIntFrom_render v Y hY]
  simp only [Option.some_bind, string_mk_data]

theorem parseJsonKVsAfter_close (fuel : Nat) (rest : List Char) :
    parseJsonKVsAfter fuel (rbrace :: rest) = some ([], rest) := by
  cases fuel <;> rfl

theorem parseJsonKVsAfter_step (f : Nat) (X : List Char) :
    parseJsonKVsAfter (f + 1) (',' :: ' ' :: X) =
      (parseKVFrom X).bind fun br =>
        (parseJsonKVsAfter f br.2).bind fun bsr =>
          some (br.1 :: bsr.1, bsr.2) := rfl

theorem parseJsonKVsAfter_render (kvs : List (String × Int))
    (hks : ∀ kv ∈ kvs, goodKey kv.1 = true) :
    ∀ fuel, kvs.length ≤ fuel → ∀ rest : List Char,
      parseJsonKVsAfter fuel (renderKVsTail kvs ++ rbrace :: rest) = some (kvs, rest) := by
  induction kvs with
  | nil =>
    intro fuel _ rest
    rw [renderKVsTail, List.nil_append, parseJsonKVsAfter_close]
  | cons p kvs ih =>
    obtain ⟨k, v⟩ := p
    intro fuel hf rest
    obtain ⟨f, rfl⟩ : ∃ f, fuel = f + 1 := ⟨fuel - 1, by simp at hf; omega⟩
    rw [renderKVsTail]
    simp only [List.cons_append, List.append_assoc]
    rw [parseJsonKVsAfter_step]
    rw [parseKVFrom_render k v _ (hks (k, v) (by simp))
      (renderKVsTail_head_not_digit kvs rbrace (by decide) rest)]
    simp only [Option.some_bind]
    rw [ih (fun kv hkv => hks kv (by simp [hkv])) f (by simp at hf; omega) rest]
    rfl

theorem parseJsonMapFrom_render (kvs : List (String × Int))
    (hks : ∀ kv ∈ kvs, goodKey kv.1 = true) (rest : List Char) :
    parseJsonMapFrom (lbrace :: (renderKVsSep kvs ++ rbrace :: rest)) = some (kvs, rest) := by
  cases kvs with
  | nil =>
    rw [renderKVsSep, List.nil_append]
    rfl
  | cons p kvs =>
    obtain ⟨k, v⟩ := p
    rw [renderKVsSep_cons, List.append_assoc]
    have hne : ¬ (lbrace :: (renderKV k v ++ (renderKVsTail kvs ++ rbrace :: rest))).tail.head?
        = some rbrace := by
      simp only [List.tail_cons]
      rw [renderKV]
      simp only [List.cons_append, List.head?_cons]
      intro h
      have := Option.some.inj h
      exact absurd this (by decide)
    rw [parseJsonMapFrom]
    rw [if_pos (show (lbrace :: (renderKV k v ++ (renderKVsTail kvs ++ rbrace :: rest))).head?
      = some lbrace from rfl)]
    rw [if_neg hne]
    simp only [List.tail_cons]
    rw [parseKVFrom_render k v _ (hks (k, v) (by simp))
      (renderKVsTail_head_not_digit kvs rbrace (by decide) rest)]
    simp only [Option.some_bind]
    have hlen : kvs.length ≤ (renderKVsTail kvs ++ rbrace :: rest).length := by
      have := renderKVsTail_length kvs
      simp only [List.length_append, List.length_cons]
      omega
    rw [parseJsonKVsAfter_render kvs (fun kv hkv => hks kv (by simp [hkv])) _ hlen rest]
    rfl

theorem coerceTextToInt_render (i : Int) : coerceTextToInt (String.mk (renderInt i)) = some i := by
  have heq := parseIntFrom_render i [] (by intro c hc; simp at hc)
  rw [List.append_nil] at heq
  rw [coerceTextToInt, show (String.mk (renderInt i)).data = renderInt i from rfl, heq]

theorem json_loads_dumpSeq (xs : List Int) : json_loads (jsonDumpSeq xs) = some (PV.seq xs) := by
  rw [json_loads, jsonDumpSeq,
    show (String.mk ('[' :: (renderIntsSep xs ++ [']']))).data
      = '[' :: (renderIntsSep xs ++ ']' :: []) from rfl,
    parseJsonSeqFrom_render xs []]

theorem parseJsonSeqFrom_lbrace (cs : List Char) :
    parseJsonSeqFrom (lbrace :: cs) = none := rfl

theorem json_loads_dumpMap (kvs : List (String × Int))
    (hks : ∀ kv ∈ kvs, goodKey kv.1 = true) :
    json_loads (jsonDumpMap kvs) = some (PV.map kvs) := by
  rw [json_loads, jsonDumpMap,
    show (String.mk (lbrace :: (renderKVsSep kvs ++ [rbrace]))).data
      = lbrace :: (renderKVsSep kvs ++ rbrace :: []) from rfl,
    parseJsonSeqFrom_lbrace,
    parseJsonMapFrom_render kvs hks []]

theorem literal_eval_renderTuple (xs : List Int) :
    literal_eval (String.mk (renderTuple xs)) = some (PV.tuple xs) := by
  have heq := parseTupleFrom_render xs []
  rw [List.append_nil] at heq
  rw [literal_eval, show (String.mk (renderTuple xs)).data = renderTuple xs from rfl, heq]

/-- C5: for every representable value `v` — text/int/bool scalars and
integer-element tuples, sequences and quote-free-keyed mappings —
deserializing the serialized form back at `v`'s own type returns `v`:
`deserialize_value key (serialize_value v) (type v) = v`. -/
theorem serialize_deserialize_round_trip (key : String) (v : PV)
    (h : representable v = true) :
    serde_round_trip key v = .ok v := by
  cases v with
  | text s => rfl
  | int i =>
    show deserialize_value key (.text (String.mk (renderInt i))) .hInt = .ok (.int i)
    simp [deserialize_value, sc_of_val, sc_of_hint, coerce_type, coerceTextToInt_render i]
  | bool b => cases b <;> rfl
  | tuple xs =>
    show deserialize_value key (.text (String.mk (renderTuple xs))) .hTuple = .ok (.tuple xs)
    simp [deserialize_value, sc_of_val, sc_of_hint, textContent, literal_eval_renderTuple xs, isInstanceOfHint]
  | seq xs =>
    show deserialize_value key (.text (jsonDumpSeq xs)) .hSeq = .ok (.seq xs)
    simp [deserialize_value, sc_of_val, sc_of_hint, textContent, json_loads_dumpSeq xs, isInstanceOfHint]
  | map kvs =>
    have hks : ∀ kv ∈ kvs, goodKey kv.1 = true := by
      rw [representable] at h
      exact fun kv hkv => List.all_eq_true.mp h kv hkv
    show deserialize_value key (.text (jsonDumpMap kvs)) .hMap = .ok (.map kvs)
    simp [deserialize_value, sc_of_val, sc_of_hint, textContent, json_loads_dumpMap kvs hks, isInstanceOfHint]

theorem serialize_deserialize_round_trip_witness :
    representable (PV.map [("host", 5), ("port", -1)]) = true ∧
      serde_round_trip "credentials" (PV.map [("host", 5), ("port", -1)])
        = .ok (PV.map [("host", 5), ("port", -1)]) :=
  ⟨by decide, serialize_deserialize_round_trip "credentials" _ (by decide)⟩

/-- C10: `serialize_value` applied to `None` raises `ValueError` instead
of producing a textual form, so `None` is not among the representable
values of the serialization round-trip. -/
theorem serialize_none_raises : serialize_value none = .error .valueError := rfl

theorem look_provider_ok_none (p : Provider) (key : String) (hint : FieldHint)
    (pip : Option String) (cfg : String)
    (hnone : ∀ path, (p.get_value key hint path).1 = none) :
    ∀ fuel ns, ∃ tr, look_provider p key hint pip cfg fuel ns = .ok (none, tr) := by
  intro fuel
  induction fuel with
  | zero =>
    intro ns
    cases ns with
    | nil => exact ⟨_, by rw [look_provider]; simp [hnone]; try rfl⟩
    | cons a l => exact ⟨_, by rw [look_provider]; simp [hnone]; try rfl⟩
  | succ f ih =>
    intro ns
    cases ns with
    | nil => exact ⟨_, by rw [look_provider]; simp [hnone]; try rfl⟩
    | cons a l =>
      obtain ⟨tr, htr⟩ := ih (a :: l).dropLast
      exact ⟨_, by rw [look_provider]; simp [hnone, htr]; try rfl⟩

theorem look_provider_tried_chain (p : Provider) (key : String) (hint : FieldHint)
    (pip : Option String) (cfg : String)
    (hnone : ∀ path, (p.get_value key hint path).1 = none) :
    ∀ fuel ns, (look_provider_tried p key hint pip cfg fuel ns).map (fun a => a.full_ns)
      = (dropLastChain fuel ns).map (attemptNamespaces p.supports_namespaces pip cfg) := by
  intro fuel
  induction fuel with
  | zero =>
    intro ns
    cases ns with
    | nil => rw [look_provider_tried]; simp [hnone, dropLastChain]
    | cons a l => rw [look_provider_tried]; simp [hnone, dropLastChain]
  | succ f ih =>
    intro ns
    cases ns with
    | nil => rw [look_provider_tried]; simp [hnone, dropLastChain]
    | cons a l =>
      rw [look_provider_tried]
      simp only [hnone, Option.isSome_none, Bool.false_eq_true, if_false, dropLastChain,
        List.map_cons]
      simp [ih (a :: l).dropLast, hnone]

theorem look_provider_violation (p : Provider) (key : String) (hint : FieldHint)
    (pip : Option String) (cfg : String) (hsec : _is_secret_hint hint = true) :
    ∀ fuel ns a, a ∈ look_provider_tried p key hint pip cfg fuel ns →
      a.provider.supports_secrets = false → a.value.isSome = true →
      look_provider p key hint pip cfg fuel ns = .error (.valueNotSecret p.name a.ns_key)
      ∧ (look_provider_tried p key hint pip cfg fuel ns).getLast? = some a := by
  intro fuel
  induction fuel with
  | zero =>
    intro ns a hmem hp hv
    cases hval : (p.get_value key hint
        (attemptNamespaces p.supports_namespaces pip cfg ns)).1 with
    | none =>
      have htried : look_provider_tried p key hint pip cfg 0 ns
          = [⟨p, attemptNamespaces p.supports_namespaces pip cfg ns,
              (p.get_value key hint (attemptNamespaces p.supports_namespaces pip cfg ns)).2,
              none⟩] := by
        rw [look_provider_tried]
        cases ns <;> simp [hval]
      rw [htried] at hmem
      simp at hmem
      rw [hmem] at hv
      simp at hv
    | some v =>
      have htried : look_provider_tried p key hint pip cfg 0 ns
          = [⟨p, attemptNamespaces p.supports_namespaces pip cfg ns,
              (p.get_value key hint (attemptNamespaces p.supports_namespaces pip cfg ns)).2,
              some v⟩] := by
        rw [look_provider_tried]
        simp [hval]
      rw [htried] at hmem
      simp at hmem
      subst hmem
      simp only at hp
      constructor
      · rw [look_provider]
        simp [hval, hp, hsec]
      · rw [htried]
        rfl
  | succ f ih =>
    intro ns a hmem hp hv
    cases hval : (p.get_value key hint
        (attemptNamespaces p.supports_namespaces pip cfg ns)).1 with
    | some v =>
      have htried : look_provider_tried p key hint pip cfg (f + 1) ns
          = [⟨p, attemptNamespaces p.supports_namespaces pip cfg ns,
              (p.get_value key hint (attemptNamespaces p.supports_namespaces pip cfg ns)).2,
              some v⟩] := by
        rw [look_provider_tried]
        simp [hval]
      rw [htried] at hmem
      simp at hmem
      subst hmem
      simp only at hp
      constructor
      · rw [look_provider]
        simp [hval, hp, hsec]
      · rw [htried]
        rfl
    | none =>
      cases hns : ns with
      | nil =>
        subst hns
        have htried : look_provider_tried p key hint pip cfg (f + 1) []
            = [⟨p, attemptNamespaces p.supports_namespaces pip cfg [],
                (p.get_value key hint (attemptNamespaces p.supports_namespaces pip cfg [])).2,
                none⟩] := by
          rw [look_provider_tried]
          simp [hval]
        rw [htried] at hmem
        simp at hmem
        rw [hmem] at hv
        simp at hv
      | cons x l =>
        subst hns
        have htried : look_provider_tried p key hint pip cfg (f + 1) (x :: l)
            = ⟨p, attemptNamespaces p.supports_namespaces pip cfg (x :: l),
                (p.get_value key hint
                  (attemptNamespaces p.supports_namespaces pip cfg (x :: l))).2, none⟩
              :: look_provider_tried p key hint pip cfg f (x :: l).dropLast := by
          rw [look_provider_tried]
          simp [hval]
        rw [htried] at hmem
        rcases List.mem_cons.mp hmem with hma | hma
        · rw [hma] at hv
          simp at hv
        · obtain ⟨herr, hlast⟩ := ih (x :: l).dropLast a hma hp hv
          constructor
          · rw [look_provider]
            simp only [hval, Option.isSome_none, Bool.false_and, Bool.false_eq_true, if_false,
              List.isEmpty_cons, herr]
          · rw [htried]
            cases hrec : look_provider_tried p key hint pip cfg f (x :: l).dropLast with
            | nil =>
              rw [hrec] at hma
              simp at hma
            | cons r rs =>
              rw [hrec] at hlast
              rw [List.getLast?_cons_cons]
              exact hlast

theorem look_provider_trace_filter (p : Provider) (key : String) (hint : FieldHint)
    (pip : Option String) (cfg : String) :
    ∀ fuel ns v tr, look_provider p key hint pip cfg fuel ns = .ok (v, tr) →
      tr = (look_provider_tried p key hint pip cfg fuel ns).filterMap
        (fun a => if rejectedBoundary hint a then none else some (attemptToTrace a)) := by
  have main : ∀ fuel ns v tr,
      look_provider p key hint pip cfg fuel ns = .ok (v, tr) →
      tr = (look_provider_tried p key hint pip cfg fuel ns).filterMap
        (fun a => if rejectedBoundary hint a then none else some (attemptToTrace a)) := by
    intro fuel
    induction fuel with
    | zero =>
      intro ns v tr h
      cases hcb : (!p.supports_secrets && _is_secret_hint hint) with
      | true =>
        obtain ⟨hps, hs2⟩ : p.supports_secrets = false ∧ _is_secret_hint hint = true := by
          have := hcb
          simp at this
          exact this
        cases hval : (p.get_value key hint
            (attemptNamespaces p.supports_namespaces pip cfg ns)).1 with
        | some w =>
          rw [look_provider] at h
          simp [hval, hps, hs2] at h
        | none =>
          have hlp : look_provider p key hint pip cfg 0 ns = .ok (none, []) := by
            rw [look_provider]; cases ns <;> simp [hval, hps, hs2]
          rw [hlp] at h
          injection (Except.ok.inj h) with h1 h2
          rw [look_provider_tried]
          cases ns <;> simp [hval, rejectedBoundary, hps, hs2, ← h2]
      | false =>
        have hcn : ¬(p.supports_secrets = false ∧ _is_secret_hint hint = true) := by
          intro hand
          rw [hand.1, hand.2] at hcb
          simp at hcb
        cases hval : (p.get_value key hint
            (attemptNamespaces p.supports_namespaces pip cfg ns)).1 with
        | some w =>
          have hlp : look_provider p key hint pip cfg 0 ns
              = .ok (some w, [⟨p.name, attemptNamespaces p.supports_namespaces pip cfg ns,
                  (p.get_value key hint (attemptNamespaces p.supports_namespaces pip cfg ns)).2,
                  some w⟩]) := by
            rw [look_provider]; simp [hval, hcb]
          rw [hlp] at h
          injection (Except.ok.inj h) with h1 h2
          rw [look_provider_tried]
          simp [hval, rejectedBoundary, attemptToTrace, hcb, hcn, ← h2]
        | none =>
          have hlp : look_provider p key hint pip cfg 0 ns
              = .ok (none, [⟨p.name, attemptNamespaces p.supports_namespaces pip cfg ns,
                  (p.get_value key hint (attemptNamespaces p.supports_namespaces pip cfg ns)).2,
                  none⟩]) := by
            rw [look_provider]; cases ns <;> simp [hval, hcb]
          rw [hlp] at h
          injection (Except.ok.inj h) with h1 h2
          rw [look_provider_tried]
          cases ns <;> simp [hval, rejectedBoundary, attemptToTrace, hcb, hcn, ← h2]
    | succ f ih =>
      intro ns v tr h
      cases hval : (p.get_value key hint
          (attemptNamespaces p.supports_namespaces pip cfg ns)).1 with
      | some w =>
        cases hcb : (!p.supports_secrets && _is_secret_hint hint) with
        | true =>
          obtain ⟨hps, hs2⟩ : p.supports_secrets = false ∧ _is_secret_hint hint = true := by
            have := hcb
            simp at this
            exact this
          rw [look_provider] at h
          simp [hval, hps, hs2] at h
        | false =>
          have hcn : ¬(p.supports_secrets = false ∧ _is_secret_hint hint = true) := by
            intro hand
            rw [hand.1, hand.2] at hcb
            simp at hcb
          have hlp : look_provider p key hint pip cfg (f + 1) ns
              = .ok (some w, [⟨p.name, attemptNamespaces p.supports_namespaces pip cfg ns,
                  (p.get_value key hint (attemptNamespaces p.supports_namespaces pip cfg ns)).2,
                  some w⟩]) := by
            rw [look_provider]; simp [hval, hcb]
          rw [hlp] at h
          injection (Except.ok.inj h) with h1 h2
          rw [look_provider_tried]
          simp [hval, rejectedBoundary, attemptToTrace, hcb, hcn, ← h2]
      | none =>
        cases hns : ns with
        | nil =>
          subst hns
          cases hcb : (!p.supports_secrets && _is_secret_hint hint) with
          | true =>
            obtain ⟨hps, hs2⟩ : p.supports_secrets = false ∧ _is_secret_hint hint = true := by
              have := hcb
              simp at this
              exact this
            have hlp : look_provider p key hint pip cfg (f + 1) [] = .ok (none, []) := by
              rw [look_provider]; simp [hval, hps, hs2]
            rw [hlp] at h
            injection (Except.ok.inj h) with h1 h2
            rw [look_provider_tried]
            simp [hval, rejectedBoundary, hps, hs2, ← h2]
          | false =>
            have hcn : ¬(p.supports_secrets = false ∧ _is_secret_hint hint = true) := by
              intro hand
              rw [hand.1, hand.2] at hcb
              simp at hcb
            have hlp : look_provider p key hint pip cfg (f + 1) []
                = .ok (none, [⟨p.name, attemptNamespaces p.supports_namespaces pip cfg [],
                    (p.get_value key hint (attemptNamespaces p.supports_namespaces pip cfg [])).2,
                    none⟩]) := by
              rw [look_provider]; simp [hval, hcb]
            rw [hlp] at h
            injection (Except.ok.inj h) with h1 h2
            rw [look_provider_tried]
            simp [hval, rejectedBoundary, attemptToTrace, hcb, hcn, ← h2]
        | cons x l =>
          subst hns
          cases hrec : look_provider p key hint pip cfg f (x :: l).dropLast with
          | error e =>
            have hlp : look_provider p key hint pip cfg (f + 1) (x :: l) = .error e := by
              rw [look_provider]; simp [hval, hrec]
            rw [hlp] at h
            exact Except.noConfusion h
          | ok p2 =>
            obtain ⟨v2, trs⟩ := p2
            have ihr := ih (x :: l).dropLast v2 trs hrec
            cases hcb : (!p.supports_secrets && _is_secret_hint hint) with
            | true =>
              have hlp : look_provider p key hint pip cfg (f + 1) (x :: l) = .ok (v2, trs) := by
                rw [look_provider]; simp [hval, hrec, hcb]
              rw [hlp] at h
              injection (Except.ok.inj h) with h1 h2
              rw [look_provider_tried]
              simp only [hval, Option.isSome_none, Bool.false_eq_true, if_false,
                List.isEmpty_cons, List.filterMap_cons]
              obtain ⟨hps, hs2⟩ : p.supports_secrets = false ∧ _is_secret_hint hint = true := by
                have := hcb
                simp at this
                exact this
              simp [rejectedBoundary, hps, hs2, ← h2, ihr]
            | false =>
              have hcn : ¬(p.supports_secrets = false ∧ _is_secret_hint hint = true) := by
                intro hand
                rw [hand.1, hand.2] at hcb
                simp at hcb
              have hlp : look_provider p key hint pip cfg (f + 1) (x :: l)
                  = .ok (v2, ⟨p.name, attemptNamespaces p.supports_namespaces pip cfg (x :: l),
                      (p.get_value key hint
                        (attemptNamespaces p.supports_namespaces pip cfg (x :: l))).2,
                      none⟩ :: trs) := by
                rw [look_provider]; simp [hval, hrec, hcb]
              rw [hlp] at h
              injection (Except.ok.inj h) with h1 h2
              rw [look_provider_tried]
              simp only [hval, Option.isSome_none, Bool.false_eq_true, if_false,
                List.isEmpty_cons, List.filterMap_cons]
              simp [rejectedBoundary, attemptToTrace, hcb, ← h2, ihr]
  exact main

theorem look_provider_tried_provider (p : Provider) (key : String) (hint : FieldHint)
    (pip : Option String) (cfg : String) :
    ∀ fuel ns a, a ∈ look_provider_tried p key hint pip cfg fuel ns → a.provider = p := by
  intro fuel
  induction fuel with
  | zero =>
    intro ns a hmem
    rw [look_provider_tried] at hmem
    simp at hmem
    first
    | rfl
    | (subst hmem; rfl)
  | succ f ih =>
    intro ns a hmem
    rw [look_provider_tried] at hmem
    by_cases hv : (p.get_value key hint
        (attemptNamespaces p.supports_namespaces pip cfg ns)).1.isSome = true
    · rw [if_pos hv] at hmem
      simp at hmem
      rw [hmem]
    · rw [if_neg hv] at hmem
      by_cases hemp : ns.isEmpty = true
      · rw [if_pos hemp] at hmem
        simp at hmem
        rw [hmem]
      · rw [if_neg hemp] at hmem
        rcases List.mem_cons.mp hmem with hma | hma
        · rw [hma]
        · exact ih ns.dropLast a hma

theorem look_namespaces_violation (key : String) (hint : FieldHint) (cfg : String)
    (ens emb ctx : List String) (pip : Option String)
    (hsec : _is_secret_hint hint = true) :
    ∀ ps a, a ∈ look_namespaces_tried key hint cfg ens emb ctx pip ps →
      a.provider.supports_secrets = false → a.value.isSome = true →
      look_namespaces key hint cfg ens emb ctx pip ps
        = .error (.valueNotSecret a.provider.name a.ns_key)
      ∧ (look_namespaces_tried key hint cfg ens emb ctx pip ps).getLast? = some a := by
  intro ps
  induction ps with
  | nil =>
    intro a hmem hp hv
    rw [look_namespaces_tried] at hmem
    simp at hmem
  | cons p rest ih =>
    intro a hmem hp hv
    by_cases hsup : p.supports_namespaces = true
    · rw [look_namespaces_tried, if_pos hsup] at hmem
      dsimp only at hmem
      cases hlpr : look_provider p key hint pip cfg
          ((if !ens.isEmpty then ens else ctx) ++ emb).length
          ((if !ens.isEmpty then ens else ctx) ++ emb) with
      | error e =>
        rw [hlpr] at hmem
        simp only at hmem
        have hprov := look_provider_tried_provider p key hint pip cfg _ _ a hmem
        obtain ⟨herr, hlast⟩ := look_provider_violation p key hint pip cfg hsec _ _ a hmem hp hv
        constructor
        · rw [look_namespaces, if_pos hsup]
          dsimp only
          rw [herr, hprov]
        · rw [look_namespaces_tried, if_pos hsup]
          dsimp only
          rw [hlpr]
          exact hlast
      | ok vt =>
        obtain ⟨v1, tr1⟩ := vt
        rw [hlpr] at hmem
        simp only at hmem
        cases hv1 : v1.isSome with
        | true =>
          rw [hv1] at hmem
          simp only [if_true] at hmem
          obtain ⟨herr, _⟩ := look_provider_violation p key hint pip cfg hsec _ _ a hmem hp hv
          rw [herr] at hlpr
          exact Except.noConfusion hlpr
        | false =>
          rw [hv1] at hmem
          simp only [Bool.false_eq_true, if_false] at hmem
          rcases List.mem_append.mp hmem with hma | hma
          · obtain ⟨herr, _⟩ := look_provider_violation p key hint pip cfg hsec _ _ a hma hp hv
            rw [herr] at hlpr
            exact Except.noConfusion hlpr
          · obtain ⟨herr2, hlast2⟩ := ih a hma hp hv
            have hne : look_namespaces_tried key hint cfg ens emb ctx pip rest ≠ [] :=
              List.ne_nil_of_mem hma
            constructor
            · rw [look_namespaces, if_pos hsup]
              dsimp only
              rw [hlpr]
              simp only [hv1, Bool.false_eq_true, if_false, herr2]
            · rw [look_namespaces_tried, if_pos hsup]
              dsimp only
              rw [hlpr]
              simp only [hv1, Bool.false_eq_true, if_false]
              rw [List.getLast?_append_of_ne_nil _ hne]
              exact hlast2
    · by_cases hpip : pip.isSome = true
      · rw [look_namespaces_tried, if_neg hsup, if_pos hpip] at hmem
        obtain ⟨herr2, hlast2⟩ := ih a hmem hp hv
        constructor
        · rw [look_namespaces, if_neg hsup, if_pos hpip]
          exact herr2
        · rw [look_namespaces_tried, if_neg hsup, if_pos hpip]
          exact hlast2
      · rw [look_namespaces_tried, if_neg hsup, if_neg hpip] at hmem
        dsimp only at hmem
        cases hlpr : look_provider p key hint pip cfg 0 [] with
        | error e =>
          rw [hlpr] at hmem
          simp only at hmem
          have hprov := look_provider_tried_provider p key hint pip cfg _ _ a hmem
          obtain ⟨herr, hlast⟩ := look_provider_violation p key hint pip cfg hsec _ _ a hmem hp hv
          constructor
          · rw [look_namespaces, if_neg hsup, if_neg hpip, herr, hprov]
          · rw [look_namespaces_tried, if_neg hsup, if_neg hpip, hlpr]
            simp only
            exact hlast
        | ok vt =>
          obtain ⟨v1, tr1⟩ := vt
          rw [hlpr] at hmem
          simp only at hmem
          cases hv1 : v1.isSome with
          | true =>
            rw [hv1] at hmem
            simp only [if_true] at hmem
            obtain ⟨herr, _⟩ := look_provider_violation p key hint pip cfg hsec _ _ a hmem hp hv
            rw [herr] at hlpr
            exact Except.noConfusion hlpr
          | false =>
            rw [hv1] at hmem
            simp only [Bool.false_eq_true, if_false] at hmem
            rcases List.mem_append.mp hmem with hma | hma
            · obtain ⟨herr, _⟩ := look_provider_violation p key hint pip cfg hsec _ _ a hma hp hv
              rw [herr] at hlpr
              exact Except.noConfusion hlpr
            · obtain ⟨herr2, hlast2⟩ := ih a hma hp hv
              have hne : look_namespaces_tried key hint cfg ens emb ctx pip rest ≠ [] :=
                List.ne_nil_of_mem hma
              constructor
              · rw [look_namespaces, if_neg hsup, if_neg hpip, hlpr]
                simp only [hv1, Bool.false_eq_true, if_false, herr2]
              · rw [look_namespaces_tried, if_neg hsup, if_neg hpip, hlpr]
                simp only [hv1, Bool.false_eq_true, if_false]
                rw [List.getLast?_append_of_ne_nil _ hne]
                exact hlast2

theorem look_namespaces_trace_filter (key : String) (hint : FieldHint) (cfg : String)
    (ens emb ctx : List String) (pip : Option String) :
    ∀ ps v tr, look_namespaces key hint cfg ens emb ctx pip ps = .ok (v, tr) →
      tr = (look_namespaces_tried key hint cfg ens emb ctx pip ps).filterMap
        (fun a => if rejectedBoundary hint a then none else some (attemptToTrace a)) := by
  intro ps
  induction ps with
  | nil =>
    intro v tr h
    rw [look_namespaces] at h
    injection (Except.ok.inj h) with h1 h2
    rw [look_namespaces_tried, ← h2]
    rfl
  | cons p rest ih =>
    intro v tr h
    by_cases hsup : p.supports_namespaces = true
    · rw [look_namespaces, if_pos hsup] at h
      dsimp only at h
      rw [look_namespaces_tried, if_pos hsup]
      dsimp only
      cases hlpr : look_provider p key hint pip cfg
          ((if !ens.isEmpty then ens else ctx) ++ emb).length
          ((if !ens.isEmpty then ens else ctx) ++ emb) with
      | error e =>
        rw [hlpr] at h
        exact Except.noConfusion h
      | ok vt =>
        obtain ⟨v1, tr1⟩ := vt
        rw [hlpr] at h
        dsimp only at h
        have htr1 := look_provider_trace_filter p key hint pip cfg _ _ v1 tr1 hlpr
        cases hv1 : v1.isSome with
        | true =>
          rw [hv1] at h
          simp only [if_true] at h
          injection (Except.ok.inj h) with h1 h2
          dsimp only
          simp only [hv1, if_true]
          rw [← h2, htr1]
        | false =>
          rw [hv1] at h
          simp only [Bool.false_eq_true, if_false] at h
          cases hrest : look_namespaces key hint cfg ens emb ctx pip rest with
          | error e =>
            rw [hrest] at h
            exact Except.noConfusion h
          | ok vt2 =>
            obtain ⟨v2, tr2⟩ := vt2
            rw [hrest] at h
            injection (Except.ok.inj h) with h1 h2
            dsimp only
            simp only [hv1, Bool.false_eq_true, if_false]
            rw [List.filterMap_append, ← h2, htr1, ih v2 tr2 hrest]
    · by_cases hpip : pip.isSome = true
      · rw [look_namespaces, if_neg hsup, if_pos hpip] at h
        rw [look_namespaces_tried, if_neg hsup, if_pos hpip]
        exact ih v tr h
      · rw [look_namespaces, if_neg hsup, if_neg hpip] at h
        rw [look_namespaces_tried, if_neg hsup, if_neg hpip]
        dsimp only
        cases hlpr : look_provider p key hint pip cfg 0 [] with
        | error e =>
          rw [hlpr] at h
          exact Except.noConfusion h
        | ok vt =>
          obtain ⟨v1, tr1⟩ := vt
          rw [hlpr] at h
          dsimp only at h
          have htr1 := look_provider_trace_filter p key hint pip cfg 0 [] v1 tr1 hlpr
          cases hv1 : v1.isSome with
          | true =>
            rw [hv1] at h
            simp only [if_true] at h
            injection (Except.ok.inj h) with h1 h2
            dsimp only
            simp only [hv1, if_true]
            rw [← h2, htr1]
          | false =>
            rw [hv1] at h
            simp only [Bool.false_eq_true, if_false] at h
            cases hrest : look_namespaces key hint cfg ens emb ctx pip rest with
            | error e =>
              rw [hrest] at h
              exact Except.noConfusion h
            | ok vt2 =>
              obtain ⟨v2, tr2⟩ := vt2
              rw [hrest] at h
              injection (Except.ok.inj h) with h1 h2
              dsimp only
              simp only [hv1, Bool.false_eq_true, if_false]
              rw [List.filterMap_append, ← h2, htr1, ih v2 tr2 hrest]

/-- C1: whenever the lookup engine's search reaches an attempt at which a
provider returns a present value, the provider cannot hold secrets, and
the field's declared type requires secrecy (`TSecretValue` or a
credentials configuration, per `_is_secret_hint`), the lookup raises
`ValueNotSecretException` naming that provider and key at once: the
violating attempt is the last one tried — no later namespace suffix and
no later provider is consulted, and the value is never returned. -/
theorem secret_boundary_raises_immediately (env : ResolveEnv) (key : String)
    (hint inner_hint : FieldHint) (config_namespace : String)
    (explicit_namespaces embedded_namespaces : List String)
    (hsec : _is_secret_hint hint = true) (a : Attempt)
    (hmem : a ∈ _resolve_single_value_tried env key hint inner_hint config_namespace
      explicit_namespaces embedded_namespaces)
    (hp : a.provider.supports_secrets = false) (hv : a.value.isSome = true) :
    _resolve_single_value env key hint inner_hint config_namespace explicit_namespaces
        embedded_namespaces = .error (.valueNotSecret a.provider.name a.ns_key)
    ∧ (_resolve_single_value_tried env key hint inner_hint config_namespace
        explicit_namespaces embedded_namespaces).getLast? = some a := by
  by_cases hcx : isContextHint inner_hint = true
  · rw [_resolve_single_value_tried, if_pos hcx] at hmem
    simp at hmem
  · by_cases hcf : isConfigHint inner_hint = true
    · rw [_resolve_single_value_tried, if_neg hcx, if_pos hcf] at hmem
      simp at hmem
    · rw [_resolve_single_value_tried, if_neg hcx, if_neg hcf] at hmem
      dsimp only at hmem
      rw [_resolve_single_value, if_neg hcx, if_neg hcf]
      rw [_resolve_single_value_tried, if_neg hcx, if_neg hcf]
      dsimp only
      by_cases hpn : (env.namespaces_context.pipeline_name).isSome = true
      · simp only [hpn, if_true] at hmem ⊢
        cases hfirst : look_namespaces key hint
            (_apply_embedded_namespaces_to_config_namespace config_namespace
              embedded_namespaces).1 explicit_namespaces
            (_apply_embedded_namespaces_to_config_namespace config_namespace
              embedded_namespaces).2 env.namespaces_context.namespaces
            env.namespaces_context.pipeline_name env.providers_context.providers with
        | error e =>
          rw [hfirst] at hmem
          dsimp only at hmem ⊢
          obtain ⟨herr, hlast⟩ := look_namespaces_violation key hint _ _ _ _ _ hsec _ a hmem hp hv
          exact ⟨hfirst.symm.trans herr, hlast⟩
        | ok vt =>
          obtain ⟨v1, tr1⟩ := vt
          rw [hfirst] at hmem
          dsimp only at hmem ⊢
          cases hv1 : v1.isSome with
          | true =>
            simp only [hv1, if_true] at hmem ⊢
            obtain ⟨herr, _⟩ := look_namespaces_violation key hint _ _ _ _ _ hsec _ a hmem hp hv
            rw [herr] at hfirst
            exact Except.noConfusion hfirst
          | false =>
            simp only [hv1, Bool.false_eq_true, if_false] at hmem ⊢
            rcases List.mem_append.mp hmem with hma | hma
            · obtain ⟨herr, _⟩ := look_namespaces_violation key hint _ _ _ _ _ hsec _ a hma hp hv
              rw [herr] at hfirst
              exact Except.noConfusion hfirst
            · obtain ⟨herr2, hlast2⟩ :=
                look_namespaces_violation key hint _ _ _ _ _ hsec _ a hma hp hv
              refine ⟨?_, ?_⟩
              · rw [herr2]
              · rw [List.getLast?_append_of_ne_nil _ (List.ne_nil_of_mem hma)]
                exact hlast2
      · simp only [hpn, Bool.false_eq_true, if_false, List.nil_append] at hmem ⊢
        obtain ⟨herr2, hlast2⟩ := look_namespaces_violation key hint _ _ _ _ _ hsec _ a hmem hp hv
        rw [herr2]
        exact ⟨rfl, hlast2⟩

/-- C8 (amended): for every lookup that completes without raising, the
accumulated trace holds one entry for each attempt actually tried EXCEPT
the attempts against providers that cannot hold secrets while the hint is
secret — those are omitted from the trace (the source's
`create trace, ignore providers that cant_hold_it`), contrary to the
claim that they are included. -/
theorem trace_filter_amended (env : ResolveEnv) (key : String)
    (hint inner_hint : FieldHint) (config_namespace : String)
    (explicit_namespaces embedded_namespaces : List String) (v : Option PV)
    (tr : List LookupTrace)
    (h : _resolve_single_value env key hint inner_hint config_namespace explicit_namespaces
      embedded_namespaces = .ok (v, tr)) :
    tr = (_resolve_single_value_tried env key hint inner_hint config_namespace
        explicit_namespaces embedded_namespaces).filterMap
      (fun a => if rejectedBoundary hint a then none else some (attemptToTrace a)) := by
  by_cases hcx : isContextHint inner_hint = true
  · rw [_resolve_single_value, if_pos hcx] at h
    injection (Except.ok.inj h) with h1 h2
    rw [_resolve_single_value_tried, if_pos hcx, ← h2]
    rfl
  · by_cases hcf : isConfigHint inner_hint = true
    · rw [_resolve_single_value, if_neg hcx, if_pos hcf] at h
      injection (Except.ok.inj h) with h1 h2
      rw [_resolve_single_value_tried, if_neg hcx, if_pos hcf, ← h2]
      rfl
    · rw [_resolve_single_value, if_neg hcx, if_neg hcf] at h
      dsimp only at h
      rw [_resolve_single_value_tried, if_neg hcx, if_neg hcf]
      dsimp only
      by_cases hpn : (env.namespaces_context.pipeline_name).isSome = true
      · simp only [hpn, if_true] at h ⊢
        cases hfirst : look_namespaces key hint
            (_apply_embedded_namespaces_to_config_namespace config_namespace
              embedded_namespaces).1 explicit_namespaces
            (_apply_embedded_namespaces_to_config_namespace config_namespace
              embedded_namespaces).2 env.namespaces_context.namespaces
            env.namespaces_context.pipeline_name env.providers_context.providers with
        | error e =>
          rw [hfirst] at h
          exact Except.noConfusion h
        | ok vt =>
          obtain ⟨v1, tr1⟩ := vt
          rw [hfirst] at h
          dsimp only at h ⊢
          have htr1 := look_namespaces_trace_filter key hint _ _ _ _ _ _ v1 tr1 hfirst
          cases hv1 : v1.isSome with
          | true =>
            simp only [hv1, if_true] at h ⊢
            injection (Except.ok.inj h) with h1 h2
            rw [← h2, htr1]
          | false =>
            simp only [hv1, Bool.false_eq_true, if_false] at h ⊢
            cases hrest : look_namespaces key hint
                (_apply_embedded_namespaces_to_config_namespace config_namespace
                  embedded_namespaces).1 explicit_namespaces
                (_apply_embedded_namespaces_to_config_namespace config_namespace
                  embedded_namespaces).2 env.namespaces_context.namespaces none
                env.providers_context.providers with
            | error e =>
              rw [hrest] at h
              exact Except.noConfusion h
            | ok vt2 =>
              obtain ⟨v2, tr2⟩ := vt2
              rw [hrest] at h
              have htr2 := look_namespaces_trace_filter key hint _ _ _ _ _ _ v2 tr2 hrest
              injection (Except.ok.inj h) with h1 h2
              rw [List.filterMap_append, ← h2, htr1, htr2]
      · simp only [hpn, Bool.false_eq_true, if_false, List.nil_append] at h ⊢
        cases hrest : look_namespaces key hint
            (_apply_embedded_namespaces_to_config_namespace config_namespace
              embedded_namespaces).1 explicit_namespaces
            (_apply_embedded_namespaces_to_config_namespace config_namespace
              embedded_namespaces).2 env.namespaces_context.namespaces none
            env.providers_context.providers with
        | error e =>
          rw [hrest] at h
          exact Except.noConfusion h
        | ok vt2 =>
          obtain ⟨v2, tr2⟩ := vt2
          rw [hrest] at h
          have htr2 := look_namespaces_trace_filter key hint _ _ _ _ _ _ v2 tr2 hrest
          injection (Except.ok.inj h) with h1 h2
          rw [← h2, htr2]
          rfl

/-- C3 (corrected): when an attempt at the full namespace path finds no
value, the next attempt at the same provider removes the MOST specific
(last/innermost) segment — `ns.pop()` — not the first/outermost one; the
attempts run `ns`, `ns.dropLast`, …, `[]` before the next provider is
consulted. -/
theorem namespace_pop_amended (p : Provider) (rest : List Provider) (key : String)
    (hint : FieldHint) (pipeline_name : Option String) (config_namespace : String)
    (ens emb ctx : List String) (ns : List String)
    (hsup : p.supports_namespaces = true)
    (hnone : ∀ path, (p.get_value key hint path).1 = none) :
    (look_provider_tried p key hint pipeline_name config_namespace ns.length ns).map
        (fun a => a.full_ns)
      = (dropLastChain ns.length ns).map
          (attemptNamespaces p.supports_namespaces pipeline_name config_namespace)
    ∧ look_namespaces_tried key hint config_namespace ens emb ctx pipeline_name (p :: rest)
        = look_provider_tried p key hint pipeline_name config_namespace
            ((if !ens.isEmpty then ens else ctx) ++ emb).length
            ((if !ens.isEmpty then ens else ctx) ++ emb)
          ++ look_namespaces_tried key hint config_namespace ens emb ctx pipeline_name rest := by
  constructor
  · exact look_provider_tried_chain p key hint pipeline_name config_namespace hnone ns.length ns
  · rw [look_namespaces_tried, if_pos hsup]
    dsimp only
    obtain ⟨tr, htr⟩ := look_provider_ok_none p key hint pipeline_name config_namespace hnone
      ((if !ens.isEmpty then ens else ctx) ++ emb).length
      ((if !ens.isEmpty then ens else ctx) ++ emb)
    rw [htr]
    rfl

/-- C3 counterexample: with a valueless provider and namespaces
`["a", "b"]`, the second attempt is at `["a"]` (innermost segment
removed), not at `["b"]` as removing the first/outermost segment would
give. -/
theorem namespace_pop_counterexample :
    ((look_provider_tried noneProvider "key" (.plain .hText) none "" 2 ["a", "b"]).map
        (fun a => a.full_ns) = [["a", "b"], ["a"], []])
    ∧ ([["a", "b"], ["a"], []] : List (List String)) ≠ [["a", "b"], ["b"], []] :=
  ⟨rfl, by decide⟩

theorem namespace_pop_amended_witness :
    (look_provider_tried noneProvider "key" (.plain .hText) none ""
        (["a", "b"] : List String).length ["a", "b"]).map (fun a => a.full_ns)
      = [["a", "b"], ["a"], []] :=
  ((namespace_pop_amended noneProvider [] "key" (.plain .hText) none "" [] [] [] ["a", "b"]
    rfl (fun _ => rfl)).1).trans (by decide)

/-- C2 counterexample: in the §8 scenario (P1 has a value at
`["a", "b"]`, P2 at `[]`, ambient namespaces `["a", "b"]`, no pipeline
name, no config namespace), the lookup does NOT perform six attempts: it
performs exactly one — `P1@["a", "b"]` — because the first present value
returns immediately. -/
theorem lookup_order_counterexample :
    ((_resolve_single_value_tried env2 "key" (.plain .hText) (.plain .hText) "" [] []).map
        (fun a => (a.provider.name, a.full_ns))
      = [("P1", ["a", "b"])])
    ∧ ([("P1", ["a", "b"])] : List (String × List String))
        ≠ [("P1", ["a", "b"]), ("P1", ["a"]), ("P1", []),
           ("P2", ["a", "b"]), ("P2", ["a"]), ("P2", [])] :=
  ⟨rfl, by decide⟩

/-- C2 (amended): the search order over provider/namespace-suffix pairs
is `P1@["a","b"], P1@["a"], P1@[], P2@["a","b"], P2@["a"], P2@[]`, but
the search stops at the first present value: with P1 holding a value at
`["a","b"]`, exactly the attempt `P1@["a","b"]` is performed and its
value returned; with both providers valueless, all six attempts happen in
exactly that order. -/
theorem lookup_order_amended :
    _resolve_single_value env2 "key" (.plain .hText) (.plain .hText) "" [] []
        = .ok (some (PV.text "v1"), [⟨"P1", ["a", "b"], "key", some (PV.text "v1")⟩])
    ∧ ((_resolve_single_value_tried env2 "key" (.plain .hText) (.plain .hText) "" [] []).map
        (fun a => (a.provider.name, a.full_ns)) = [("P1", ["a", "b"])])
    ∧ ((_resolve_single_value_tried env0 "key" (.plain .hText) (.plain .hText) "" [] []).map
        (fun a => (a.provider.name, a.full_ns))
      = [("P1", ["a", "b"]), ("P1", ["a"]), ("P1", []),
         ("P2", ["a", "b"]), ("P2", ["a"]), ("P2", [])]) :=
  ⟨rfl, rfl, rfl⟩

/-- C6: for a non-empty embedded-namespace chain, namespace composition
replaces the config namespace with the chain's last (innermost) element
unless that element starts with an underscore (then the config namespace
is kept), drops the consumed element, and filters every remaining
underscore-prefixed element out of the returned chain. -/
theorem apply_embedded_namespaces_spec (config_namespace : String)
    (embedded_namespaces : List String) (h : embedded_namespaces ≠ []) :
    _apply_embedded_namespaces_to_config_namespace config_namespace embedded_namespaces
      = ((if startsWithUnderscore (embedded_namespaces.getLast h)
          then config_namespace else embedded_namespaces.getLast h),
         embedded_namespaces.dropLast.filter (fun ns => !startsWithUnderscore ns))
    ∧ ∀ x ∈ (_apply_embedded_namespaces_to_config_namespace config_namespace
        embedded_namespaces).2, startsWithUnderscore x = false := by
  have hgl : embedded_namespaces.getLast? = some (embedded_namespaces.getLast h) :=
    List.getLast?_eq_getLast_of_ne_nil h
  constructor
  · rw [_apply_embedded_namespaces_to_config_namespace, hgl]
  · intro x hx
    rw [_apply_embedded_namespaces_to_config_namespace] at hx
    dsimp only at hx
    have := List.of_mem_filter hx
    simpa using this

theorem apply_embedded_namespaces_spec_witness :
    _apply_embedded_namespaces_to_config_namespace "source" ["db"] = ("db", []) :=
  ((apply_embedded_namespaces_spec "source" ["db"] (by simp)).1).trans (by decide)

theorem secret_boundary_raises_immediately_witness :
    _resolve_single_value envSecret "credentials" .tSecret (.plain .hAny) "" [] []
      = .error (.valueNotSecret "env" "credentials") :=
  (secret_boundary_raises_immediately envSecret "credentials" .tSecret (.plain .hAny) "" [] []
    rfl ⟨envProvider, [], "credentials", some (PV.text "pwd")⟩
    (List.mem_singleton.mpr rfl) rfl rfl).1

/-- C8 counterexample: a secret-typed lookup against a provider that
cannot hold secrets and has no value makes one attempt (`env@[]` is
tried), yet the accumulated trace is empty — the rejected-provider
attempt is NOT recorded in the trace. -/
theorem trace_omits_rejected_counterexample :
    _resolve_single_value envSecretEmpty "password" .tSecret (.plain .hAny) "" [] []
      = .ok (none, [])
    ∧ (_resolve_single_value_tried envSecretEmpty "password" .tSecret (.plain .hAny) "" [] []).map
        (fun a => (a.provider.name, a.full_ns)) = [("env", [])] :=
  ⟨rfl, rfl⟩

theorem trace_filter_amended_witness :
    ([⟨"P1", ["a", "b"], "key", some (PV.text "v1")⟩] : List LookupTrace)
      = (_resolve_single_value_tried env2 "key" (.plain .hText) (.plain .hText) "" [] []).filterMap
          (fun a => if rejectedBoundary (.plain .hText) a then none
                    else some (attemptToTrace a)) :=
  trace_filter_amended env2 "key" (.plain .hText) (.plain .hText) "" [] []
    (some (PV.text "v1")) [⟨"P1", ["a", "b"], "key", some (PV.text "v1")⟩] rfl

/-- C4 (amended): for a scalar (non-nested, non-context) field, a TRUTHY
explicit value causes zero provider queries (empty trace and no attempt),
no deserialization, and the explicit value itself is returned for
storage. -/
theorem explicit_value_amended (env : ResolveEnv) (key : String) (hint : FieldHint)
    (default_value explicit_value : Option PV) (config_namespace : String)
    (explicit_namespaces embedded_namespaces : List String)
    (hexp : optTruthy explicit_value = true)
    (hnc : isConfigHint (extract_inner hint) = false)
    (hnx : isContextHint (extract_inner hint) = false) :
    _resolve_config_field env key hint default_value explicit_value config_namespace
        explicit_namespaces embedded_namespaces = .ok (explicit_value, [])
    ∧ _resolve_config_field_tried env key hint explicit_value config_namespace
        explicit_namespaces embedded_namespaces = [] := by
  obtain ⟨w, rfl⟩ : ∃ w, explicit_value = some w := by
    cases explicit_value with
    | none => simp [optTruthy] at hexp
    | some w => exact ⟨w, rfl⟩
  constructor
  · rw [_resolve_config_field, if_pos hexp]
    dsimp only
    rw [if_neg (by rw [hnc]; exact fun hh => Bool.noConfusion hh),
      if_neg (by rw [hnx]; exact fun hh => Bool.noConfusion hh)]
    rw [if_pos hexp]
    rw [pyOrDefault, if_pos (by simpa [optTruthy] using hexp)]
  · rw [_resolve_config_field_tried, if_pos hexp]

/-- C4 counterexample: supplying the FALSY explicit value `0` for field
"port" does not win: the provider is queried (one attempt, a non-empty
trace), the provider's text "7" is coerced, and `7` — not the explicit
`0` — is stored. -/
theorem explicit_value_counterexample :
    _resolve_config_field envC4 "port" (.plain .hInt) none (some (PV.int 0)) "" [] []
      = .ok (some (PV.int 7), [⟨"ENV", [], "port", some (PV.text "7")⟩])
    ∧ (_resolve_config_field_tried envC4 "port" (.plain .hInt) (some (PV.int 0)) "" [] []).map
        (fun a => (a.provider.name, a.full_ns)) = [("ENV", [])] :=
  ⟨rfl, rfl⟩

theorem explicit_value_amended_witness :
    _resolve_config_field envC4 "port" (.plain .hInt) none (some (PV.int 9)) "" [] []
      = .ok (some (PV.int 9), []) :=
  (explicit_value_amended envC4 "port" (.plain .hInt) none (some (PV.int 9)) "" [] []
    rfl rfl rfl).1

theorem resolveFieldsPass_spec (env : ResolveEnv) (config_namespace : String)
    (explicit_values : List (String × PV))
    (explicit_namespaces embedded_namespaces : List String) :
    ∀ fs fields2 unres,
      resolveFieldsPass env config_namespace explicit_values explicit_namespaces
        embedded_namespaces fs = .ok (fields2, unres) →
      unres = missingOf env config_namespace explicit_values explicit_namespaces
          embedded_namespaces fs
      ∧ fields2.map (fun f => f.name) = fs.map (fun f => f.name) := by
  intro fs
  induction fs with
  | nil =>
    intro fields2 unres h
    rw [resolveFieldsPass] at h
    injection (Except.ok.inj h) with h1 h2
    rw [missingOf, ← h1, ← h2]
    exact ⟨rfl, rfl⟩
  | cons f rest ih =>
    intro fields2 unres h
    rw [resolveFieldsPass] at h
    cases hf : _resolve_config_field env f.name f.hint f.value
        (explicitValueOf explicit_values f.name) config_namespace explicit_namespaces
        embedded_namespaces with
    | error e =>
      rw [hf] at h
      exact Except.noConfusion h
    | ok cvt =>
      obtain ⟨current_value, traces⟩ := cvt
      rw [hf] at h
      dsimp only at h
      cases hrec : resolveFieldsPass env config_namespace explicit_values explicit_namespaces
          embedded_namespaces rest with
      | error e =>
        rw [hrec] at h
        exact Except.noConfusion h
      | ok ru =>
        obtain ⟨rest_fields, rest_unres⟩ := ru
        rw [hrec] at h
        injection (Except.ok.inj h) with h1 h2
        obtain ⟨ihu, ihn⟩ := ih rest_fields rest_unres hrec
        constructor
        · rw [missingOf, hf, ← h2, ihu]
          congr 1
          cases current_value with
          | none =>
            cases hopt : is_optional_type f.hint <;> simp [hopt]
          | some w => simp
        · rw [← h1]
          simp [ihn]

/-- C7: field-by-field resolution processes every declared field (the
written-back field list covers all declared names in order), collects
every non-optional field whose resolved value is absent, and — exactly
when that set is non-empty — raises a single `ConfigFieldMissingException`
listing exactly those fields, each with its full lookup trace, not just
the first one. -/
theorem config_field_missing_aggregates (env : ResolveEnv) (config : ConfigObject)
    (explicit_values : List (String × PV))
    (explicit_namespaces embedded_namespaces : List String)
    (fields2 : List ConfigField) (unres : List (String × List LookupTrace))
    (hpass : resolveFieldsPass env config.own_namespace explicit_values explicit_namespaces
      embedded_namespaces config.fields = .ok (fields2, unres)) :
    unres = missingOf env config.own_namespace explicit_values explicit_namespaces
        embedded_namespaces config.fields
    ∧ fields2.map (fun f => f.name) = config.fields.map (fun f => f.name)
    ∧ _resolve_config_fields env config explicit_values explicit_namespaces
        embedded_namespaces
      = (if unres.isEmpty then .ok { config with fields := fields2 }
         else .error (.fieldsMissing config.spec_name unres)) := by
  obtain ⟨h1, h2⟩ := resolveFieldsPass_spec env config.own_namespace explicit_values
    explicit_namespaces embedded_namespaces config.fields fields2 unres hpass
  refine ⟨h1, h2, ?_⟩
  rw [_resolve_config_fields, hpass]

theorem config_field_missing_aggregates_witness :
    _resolve_config_fields envMissing credsConfig [] [] []
      = .error (.fieldsMissing "CredsConfiguration"
          [("password", [⟨"P", [], "password", none⟩]),
           ("api_key", [⟨"P", [], "api_key", none⟩])]) :=
  ((config_field_missing_aggregates envMissing credsConfig [] [] [] _ _ rfl).2.2).trans rfl

/-- C9: resolving an already-Resolved configuration is a no-op — the same
object is returned with fields, resolution flag and stored exception
untouched, and no provider is queried. -/
theorem resolve_idempotent_noop (env : ResolveEnv) (cls : ConfigClass)
    (config : ConfigObject) (explicit_namespaces embedded_namespaces : List String)
    (explicit_value : Option PV) (accept_partial_flag : Bool)
    (h : is_resolved config = true) :
    _resolve_configuration env cls config explicit_namespaces embedded_namespaces
        explicit_value accept_partial_flag = .ok config
    ∧ _resolve_configuration_tried env cls config explicit_namespaces embedded_namespaces
        explicit_value = [] := by
  constructor
  · rw [_resolve_configuration, if_pos h]
  · rw [_resolve_configuration_tried, if_pos h]

theorem resolve_idempotent_noop_witness :
    _resolve_configuration envMissing trivialClass resolvedConfig [] [] none false
      = .ok resolvedConfig :=
  (resolve_idempotent_noop envMissing trivialClass resolvedConfig [] [] none false rfl).1
